/-
Verification of the LivrariaWebVersion bookstore service
(src/LivrariaWebVersion/app.py) against its natural-language
specification.

The Python program is shallowly embedded below:

* The SQLite table `livros` becomes a `Store`: a list of `Book` records in
  insertion (rowid) order together with the AUTOINCREMENT counter `nextId`.
* The backup directory becomes a list of `BackupFile`s, each carrying the
  snapshot content and its modification time (an abstract `Nat` clock value
  supplied by the caller; the code uses wall-clock timestamps).
* Python `str.strip`, `int(...)` and `float(...)` are modelled on ASCII
  strings, including the underscore-between-digits rule of numeric
  literals.  `float` values are idealised as exact rationals (`ℚ`); the
  code stores SQLite REALs and round-trips them through `repr`, which is
  exact on the double level, so the exact-decimal idealisation preserves
  the observable equalities.  Non-finite literals (`inf`, `nan`) are
  outside the model.
* `csv.writer` (delimiter `,`, quote `"`, QUOTE_MINIMAL, lineterminator
  CRLF) and `csv.reader`/`csv.DictReader` over `io.StringIO(text)` (its
  default `newline` keeps CR untranslated) are modelled character by
  character: delimiter sniffed by `detect_delimiter`, records end at LF
  or at a CR run followed by LF or end of data, quoted fields with
  doubled quotes may contain CR and LF literally, blank lines give empty
  records that `DictReader` skips, short rows are padded with the `None`
  restval, duplicate header names resolve last-wins — and, as in the
  stdlib reader, a bare CR in unquoted position followed by anything but
  CR/LF raises `_csv.Error` ("new-line character seen in unquoted
  field"), modelled by an absorbing error state that makes the read
  return `none`.
* Each route/operation becomes a pure function threading the system state
  `Sys` (store + backup directory) explicitly; the wall clock and
  `datetime.now().year` are parameters.

Python function and constant names are kept wherever Lean allows.
-/
import Mathlib

namespace Livraria

/-! ## Python string primitives -/

/-- ASCII whitespace as stripped by Python `str.strip()` (the model covers
the ASCII range; the strings handled by the program are ASCII headers and
user text whose non-ASCII whitespace does not occur in the claims). -/
def isPyWs (c : Char) : Bool :=
  c = ' ' || c = '\t' || c = '\n' || c = '\r' || c = '\x0b' || c = '\x0c'

/-- `str.strip()` on a character list. -/
def pyStripChars (l : List Char) : List Char :=
  (((l.dropWhile isPyWs).reverse.dropWhile isPyWs)).reverse

/-- `str.strip()`. -/
def pyStrip (s : String) : String :=
  ⟨pyStripChars s.toList⟩

/-! ## Digits, `int(...)` and `float(...)` -/

def isDigitC (c : Char) : Bool := '0' ≤ c && c ≤ '9'

def digitVal (c : Char) : Nat := c.toNat - 48

/-- Numeric value of a big-endian list of digit characters. -/
def charsVal (l : List Char) : Nat :=
  l.foldl (fun a c => a * 10 + digitVal c) 0

def digitChar10 (d : Nat) : Char := Char.ofNat (48 + d)

/-- Decimal rendering of a natural number, as Python `str` produces it. -/
def natChars (n : Nat) : List Char :=
  if n = 0 then ['0'] else ((Nat.digits 10 n).map digitChar10).reverse

/-- Decimal rendering of an integer, as Python `str` produces it. -/
def intChars (a : Int) : List Char :=
  if a < 0 then '-' :: natChars a.natAbs else natChars a.natAbs

def intToString (a : Int) : String := ⟨intChars a⟩

/-- Consume a maximal run of digits (continuing through a single `_`
that sits between two digits, as Python numeric literals allow);
returns the digits consumed and the rest.  Used after a first digit. -/
def takeDigitsMore : List Char → List Char × List Char
  | [] => ([], [])
  | c :: rest =>
    if c = '_' then
      match rest with
      | [] => ([], [c])
      | c2 :: rest2 =>
        if isDigitC c2 then
          let p := takeDigitsMore rest2
          (c2 :: p.1, p.2)
        else ([], c :: rest)
    else if isDigitC c then
      let p := takeDigitsMore rest
      (c :: p.1, p.2)
    else ([], c :: rest)

/-- Consume a maximal digit run (must start with a digit; underscores
allowed only between digits).  Returns `([], input)` when the input does
not start with a digit. -/
def takeDigits : List Char → List Char × List Char
  | [] => ([], [])
  | c :: rest =>
    if isDigitC c then
      let p := takeDigitsMore rest
      (c :: p.1, p.2)
    else ([], c :: rest)

/-- Digit run that must consume the whole input (the body of `int(...)`
after sign handling): accumulates the value, fails on anything that is
not a digit or a well-placed underscore. -/
def parseDigitsAux : List Char → Nat → Option Nat
  | [], acc => some acc
  | c :: rest, acc =>
    if c = '_' then
      match rest with
      | [] => none
      | c2 :: rest2 =>
        if isDigitC c2 then parseDigitsAux rest2 (acc * 10 + digitVal c2) else none
    else if isDigitC c then parseDigitsAux rest (acc * 10 + digitVal c) else none

def parseUnsigned : List Char → Option Nat
  | [] => none
  | c :: rest => if isDigitC c then parseDigitsAux rest (digitVal c) else none

/-- Python `int(s)`: optional surrounding whitespace, optional sign,
non-empty digit run (underscores between digits allowed). -/
def pyParseIntChars (cs : List Char) : Option Int :=
  match pyStripChars cs with
  | [] => none
  | c :: rest =>
    if c = '+' then (parseUnsigned rest).map Int.ofNat
    else if c = '-' then (parseUnsigned rest).map (fun n => -(n : Int))
    else (parseUnsigned (c :: rest)).map Int.ofNat

def pyParseInt (s : String) : Option Int :=
  pyParseIntChars s.toList

/-- Exponent digits of a float literal: a non-empty digit run that must
reach the end of the input. -/
def parseExpDigits (r : List Char) : Option Int :=
  let p := takeDigits r
  if p.1 ≠ [] ∧ p.2 = [] then some (charsVal p.1 : Int) else none

def parseSignedExp : List Char → Option Int
  | '+' :: r => parseExpDigits r
  | '-' :: r => (parseExpDigits r).map Neg.neg
  | r => parseExpDigits r

/-- Optional exponent part of a float literal (everything after the
mantissa); empty input means exponent `0`. -/
def parseExpPart : List Char → Option Int
  | [] => some 0
  | 'e' :: r => parseSignedExp r
  | 'E' :: r => parseSignedExp r
  | _ => none

/-- Unsigned float literal: `digits [. digits] [exp]` or `. digits [exp]`,
valued exactly in `ℚ`. -/
def pyParseUFloat (cs : List Char) : Option ℚ :=
  let pI := takeDigits cs
  let pF : List Char × List Char :=
    match pI.2 with
    | [] => ([], [])
    | c :: r => if c = '.' then takeDigits r else ([], c :: r)
  if pI.1 = [] ∧ pF.1 = [] then none
  else
    match parseExpPart pF.2 with
    | none => none
    | some e =>
      some (((charsVal pI.1 * 10 ^ pF.1.length + charsVal pF.1 : ℕ) : ℚ) *
        (10 : ℚ) ^ (e - (pF.1.length : ℤ)))

/-- Python `float(s)` restricted to finite decimal/scientific literals
(`inf`/`nan` are outside the model). -/
def pyParseFloatChars (cs : List Char) : Option ℚ :=
  match pyStripChars cs with
  | [] => none
  | c :: rest =>
    if c = '+' then pyParseUFloat rest
    else if c = '-' then (pyParseUFloat rest).map Neg.neg
    else pyParseUFloat (c :: rest)

def pyParseFloat (s : String) : Option ℚ :=
  pyParseFloatChars s.toList

/-! ## Rendering floats (`str(float)` on the exact-decimal idealisation)

`str` of a Python float prints the shortest decimal expansion; on the
exact-rational idealisation this is the expansion with the least number
of fractional digits, always keeping at least one (`10.0`, `0.25`).
(The scientific notation Python switches to for huge/tiny magnitudes is
rendered positionally here; both sides of the round-trip agree on the
value, which is all the program observes.) -/

/-- Least `k` with `d ∣ 10 ^ k`, searched up to `d` (which suffices for
any denominator of a decimal rational). -/
def decExp (d : ℕ) : Option ℕ :=
  (List.range (d + 1)).find? (fun k => decide (d ∣ 10 ^ k))

/-- `n` as exactly `k` digit characters (leading zeros). -/
def padDigits (k n : ℕ) : List Char :=
  List.replicate (k - (Nat.digits 10 n).length) '0' ++
    ((Nat.digits 10 n).map digitChar10).reverse

def pyStrFloatChars (q : ℚ) : List Char :=
  let sgn : List Char := if q < 0 then ['-'] else []
  match decExp q.den with
  | none => sgn ++ natChars 0 ++ ['.', '0']
  | some k =>
    let m := q.num.natAbs * 10 ^ k / q.den
    if k = 0 then sgn ++ natChars m ++ ['.', '0']
    else sgn ++ natChars (m / 10 ^ k) ++ '.' :: padDigits k (m % 10 ^ k)

def pyStrFloat (q : ℚ) : String := ⟨pyStrFloatChars q⟩

/-! ## Validators (`validar_ano`, `validar_preco`) -/

/-- `validar_ano` from app.py.  `y` stands for `datetime.now().year`. -/
def validar_ano (y : Int) (s : String) : Option Int :=
  match pyParseInt s with
  | some a => if 1000 ≤ a ∧ a ≤ y + 1 then some a else none
  | none => none

/-- `validar_preco` from app.py. -/
def validar_preco (s : String) : Option ℚ :=
  match pyParseFloat s with
  | some p => if 0 ≤ p then some p else none
  | none => none

/-! ## Data model -/

/-- A row of the `livros` table. -/
structure Book where
  id : Nat
  titulo : String
  autor : String
  ano : Option Int
  preco : Option ℚ
deriving DecidableEq, Repr

/-- The `livros` table: rows in insertion (rowid) order plus the
AUTOINCREMENT counter (SQLite assigns ids 1, 2, ...). -/
structure Store where
  nextId : Nat
  books : List Book
deriving DecidableEq, Repr

def Store.empty : Store := ⟨1, []⟩

/-- A snapshot file in the backup directory: its modification time and
the copied database content. -/
structure BackupFile where
  mtime : Nat
  content : Store
deriving DecidableEq, Repr

/-- The whole system state: database plus backup directory. -/
structure Sys where
  store : Store
  backups : List BackupFile
deriving DecidableEq, Repr

def Sys.empty : Sys := ⟨Store.empty, []⟩

/-- Table invariant maintained by the schema: ids are strictly increasing
in insertion order and below the AUTOINCREMENT counter. -/
def Store.wf (st : Store) : Prop :=
  (∀ b ∈ st.books, b.id < st.nextId) ∧
    st.books.Pairwise (fun a b => a.id < b.id)

/-! ## Backups (`backup_db`, `prune_old_backups`) -/

def MAX_BACKUPS_TO_KEEP : Nat := 5

/-- `prune_old_backups`: sort the snapshot files by modification time,
newest first, and delete everything beyond the retention count.  The
directory is represented by the surviving list in that sorted order
(a directory listing has no inherent order). -/
def prune_old_backups (files : List BackupFile) : List BackupFile :=
  (files.insertionSort (fun a b => b.mtime ≤ a.mtime)).take MAX_BACKUPS_TO_KEEP

/-- `backup_db`: copy the database into a fresh timestamped snapshot file,
then prune.  `t` is the wall-clock timestamp of the copy. -/
def backup_db (t : Nat) (db : Store) (files : List BackupFile) : List BackupFile :=
  prune_old_backups (⟨t, db⟩ :: files)

/-! ## DB operations -/

/-- `listar_livros`: `SELECT ... ORDER BY id`. -/
def listar_livros (st : Store) : List Book :=
  st.books.insertionSort (fun a b => a.id ≤ b.id)

/-- `add_livro`: back up, then insert (stripping title and author);
returns `cur.lastrowid`, the id of the new row. -/
def add_livro (t : Nat) (titulo autor : String) (ano : Option Int)
    (preco : Option ℚ) (s : Sys) : Nat × Sys :=
  let files := backup_db t s.store s.backups
  let b : Book := ⟨s.store.nextId, pyStrip titulo, pyStrip autor, ano, preco⟩
  (s.store.nextId,
   ⟨⟨s.store.nextId + 1, s.store.books ++ [b]⟩, files⟩)

/-- `update_preco`: check existence first; absent ids return `False`
with nothing written and no backup; otherwise back up, then update. -/
def update_preco (t : Nat) (livro_id : Nat) (novo_preco : ℚ) (s : Sys) :
    Bool × Sys :=
  if s.store.books.any (fun b => b.id = livro_id) then
    (true,
     ⟨⟨s.store.nextId,
       s.store.books.map (fun b =>
         if b.id = livro_id then { b with preco := some novo_preco } else b)⟩,
      backup_db t s.store s.backups⟩)
  else (false, s)

/-- `delete_livro`: check existence first; otherwise back up, then delete. -/
def delete_livro (t : Nat) (livro_id : Nat) (s : Sys) : Bool × Sys :=
  if s.store.books.any (fun b => b.id = livro_id) then
    (true,
     ⟨⟨s.store.nextId, s.store.books.filter (fun b => ¬ b.id = livro_id)⟩,
      backup_db t s.store s.backups⟩)
  else (false, s)

/-- Substring test on ASCII-lowercased text, modelling the SQLite
`LIKE '%q%'` match (case-insensitive on ASCII). -/
def startsWithL : List Char → List Char → Bool
  | [], _ => true
  | _ :: _, [] => false
  | a :: as, b :: bs => a = b && startsWithL as bs

def containsSub (pat : List Char) : List Char → Bool
  | [] => startsWithL pat []
  | l@(_ :: rest) => startsWithL pat l || containsSub pat rest

def asciiLower (c : Char) : Char :=
  if 'A' ≤ c && c ≤ 'Z' then Char.ofNat (c.toNat + 32) else c

def likeContains (q s : String) : Bool :=
  containsSub (q.toList.map asciiLower) (s.toList.map asciiLower)

/-- `search_autor`: `WHERE autor LIKE '%q%' ORDER BY id`. -/
def search_autor (q : String) (st : Store) : List Book :=
  (listar_livros st).filter (fun b => likeContains q b.autor)

/-! ## Routes -/

/-- `api_add` (`POST /api/books`): strip title/author, reject when either
is empty, validate year and price when provided and non-empty, then
`add_livro`.  Returns `none` for a 400 response (state untouched),
`some id` for 201.  `y` is `datetime.now().year`, `t` the wall clock. -/
def api_add (y : Int) (t : Nat) (tituloRaw autorRaw : String)
    (ano preco : Option String) (s : Sys) : Option Nat × Sys :=
  let titulo := pyStrip tituloRaw
  let autor := pyStrip autorRaw
  if titulo = "" ∨ autor = "" then (none, s)
  else
    match (match ano with
           | none => some none
           | some a => if a = "" then some none else (validar_ano y a).map some) with
    | none => (none, s)
    | some anoVal =>
      match (match preco with
             | none => some none
             | some p => if p = "" then some none else (validar_preco p).map some) with
      | none => (none, s)
      | some precoVal =>
        let r := add_livro t titulo autor anoVal precoVal s
        (some r.1, r.2)

/-- `api_search` (`GET /api/search`): strip the query; an empty result of
the strip short-circuits to the empty list without querying. -/
def api_search (q : String) (st : Store) : List Book :=
  let qs := pyStrip q
  if qs = "" then [] else search_autor qs st

/-! ## CSV writing (`csv.writer`, default dialect) -/

/-- A field must be quoted under QUOTE_MINIMAL iff it contains the
delimiter, the quote character, or a line-terminator character. -/
def isSpecial (d c : Char) : Bool :=
  c = d || c = '"' || c = '\r' || c = '\n'

/-- Double every quote character (the escaping inside a quoted field). -/
def escapeQuotes : List Char → List Char
  | [] => []
  | c :: rest =>
    if c = '"' then '"' :: '"' :: escapeQuotes rest
    else c :: escapeQuotes rest

def writeField (d : Char) (f : List Char) : List Char :=
  if f.any (isSpecial d) then '"' :: (escapeQuotes f ++ ['"']) else f

/-- Join fields with the delimiter. -/
def joinFields (d : Char) : List (List Char) → List Char
  | [] => []
  | [f] => f
  | f :: fs => f ++ d :: joinFields d fs

/-- `writer.writerow`: delimiter-joined fields plus CRLF. -/
def writeRow (d : Char) (fs : List (List Char)) : List Char :=
  joinFields d (fs.map (writeField d)) ++ ['\r', '\n']

/-! ## CSV reading (`csv.reader`) as a character automaton

States: `unq` scanning an unquoted region, `inq` inside quotes, `qp`
just saw a quote while inside quotes (doubled quote vs closing quote),
`cr` just ended a record at a CR (Python state EAT_CRNL: further CRs are
swallowed, an LF ends the terminator, and any other character raises
`_csv.Error` since the CR sits inside a StringIO line), `err` the raised
exception (absorbing).  Blank lines yield the empty record `[]`
(distinct from `[""]`, as in Python), tracked by the `seen` flag. -/

inductive CsvMode | unq | inq | qp | cr | err
deriving DecidableEq, Repr

structure CsvSt where
  out : List (List (List Char))
  row : List (List Char)
  cur : List Char
  seen : Bool
  mode : CsvMode
deriving Repr

def csvFresh (out : List (List (List Char))) : CsvSt :=
  ⟨out, [], [], false, .unq⟩

/-- Finish the current record (at a line terminator or EOF): a record
with no content at all is the empty record. -/
def emitRecord (st : CsvSt) : List (List (List Char)) :=
  if st.seen then ((st.cur.reverse :: st.row).reverse) :: st.out
  else [] :: st.out

def csvStepUnq (d : Char) (st : CsvSt) (c : Char) : CsvSt :=
  if c = d then { st with row := st.cur.reverse :: st.row, cur := [], seen := true }
  else if c = '\n' then csvFresh (emitRecord st)
  else if c = '\r' then { csvFresh (emitRecord st) with mode := .cr }
  else if c = '"' ∧ st.cur = [] then { st with mode := .inq, seen := true }
  else { st with cur := c :: st.cur, seen := true }

def csvStep (d : Char) (st : CsvSt) (c : Char) : CsvSt :=
  match st.mode with
  | .unq => csvStepUnq d st c
  | .inq => if c = '"' then { st with mode := .qp }
            else { st with cur := c :: st.cur }
  | .qp => if c = '"' then { st with cur := '"' :: st.cur, mode := .inq }
           else csvStepUnq d { st with mode := .unq } c
  | .cr => if c = '\n' then { st with mode := .unq }
           else if c = '\r' then st
           else { st with mode := .err }
  | .err => st

/-- EOF: an open record (including an unterminated quoted field, which
the non-strict reader returns as-is) is emitted; a raised `_csv.Error`
yields no record list at all. -/
def csvFinish (st : CsvSt) : Option (List (List (List Char))) :=
  match st.mode with
  | .err => none
  | .unq => some (if st.seen then ((st.cur.reverse :: st.row).reverse) :: st.out
                  else st.out)
  | .cr => some st.out
  | _ => some (((st.cur.reverse :: st.row).reverse) :: st.out)

/-- All records of a character stream, in order; `none` models the
`_csv.Error` raised on a bare CR in unquoted position followed by more
data. -/
def parseRecords (d : Char) (cs : List Char) : Option (List (List (List Char))) :=
  (csvFinish (cs.foldl (csvStep d) (csvFresh []))).map List.reverse

/-! ## Delimiter sniffing and `DictReader` -/

def strCount (s : String) (c : Char) : Nat := s.toList.count c

/-- `detect_delimiter` from app.py. -/
def detect_delimiter (sample_line : String) : Char :=
  if strCount sample_line ';' ≤ strCount sample_line ',' then ',' else ';'

/-- The characters `str.splitlines` breaks on: LF, CR, vertical tab,
form feed, the separator controls FS/GS/RS, NEL, and the Unicode line
and paragraph separators. -/
def isPySplitLineBreak (c : Char) : Bool :=
  c = '\n' || c = '\r' || c = '\x0b' || c = '\x0c' ||
    c = '\x1c' || c = '\x1d' || c = '\x1e' || c = '\x85' ||
    c = '\u2028' || c = '\u2029'

/-- First line of the text (what `text.splitlines()[0]` yields). -/
def firstLine (cs : List Char) : List Char :=
  cs.takeWhile (fun c => ¬ isPySplitLineBreak c)

/-- Index of the last occurrence of `k`. -/
def lastIdxOf (l : List String) (k : String) : Option Nat :=
  match l with
  | [] => none
  | x :: xs =>
    match lastIdxOf xs k with
    | some i => some (i + 1)
    | none => if x = k then some 0 else none

/-- `DictReader` row lookup `r.get(key)`: `dict(zip(fieldnames, row))`
with later duplicate field names winning and fields beyond the row
length set to the `None` restval. -/
def dictGet (header row : List String) (key : String) : Option String :=
  (lastIdxOf header key).bind (fun i => row.get? i)

/-- Python `x or y` for a lookup result: `None` and `""` fall through. -/
def truthyOr (a : Option String) (b : String) : String :=
  match a with
  | some v => if v = "" then b else v
  | none => b

/-- `(r.get(k1) or r.get(k2) or "")`. -/
def rawField (header row : List String) (k1 k2 : String) : String :=
  truthyOr (dictGet header row k1) (truthyOr (dictGet header row k2) "")

/-- Header record and data records of `csv.DictReader` on the text, the
delimiter sniffed from the first line (`import_csv_file` lines 163-169):
empty text has no lines and no rows; otherwise the first record is the
header and blank records are skipped.  `none` is the `_csv.Error` the
reader raises (at `rows = list(reader)`) on a bare CR in unquoted
position followed by further data. -/
def csvRead (text : String) : Option (List String × List (List String)) :=
  if text = "" then some ([], [])
  else
    match parseRecords (detect_delimiter ⟨firstLine text.toList⟩) text.toList with
    | none => none
    | some [] => some ([], [])
    | some (h :: rest) =>
      some (h.map (fun f => (⟨f⟩ : String)),
        (rest.filter (fun r => ¬ r = [])).map (fun r => r.map (fun f => (⟨f⟩ : String))))

/-- Header and rows of a successful read, with the empty default on the
raising path (used only to phrase per-row hypotheses about imported
data; `import_csv_file` itself branches on `csvRead`). -/
def csvHeaderRows (text : String) : List String × List (List String) :=
  (csvRead text).getD ([], [])

/-! ## Import / export -/

/-- One imported row (`import_csv_file` loop body): localized or English
column names, stripped title/author, year/price validated when the raw
field is non-empty and stored as `NULL` when validation fails. -/
def rowToBook (y : Int) (id : Nat) (header row : List String) : Book :=
  let anoRaw := rawField header row "ano_publicacao" "year"
  let precoRaw := rawField header row "preco" "price"
  { id := id
    titulo := pyStrip (rawField header row "titulo" "title")
    autor := pyStrip (rawField header row "autor" "author")
    ano := if anoRaw = "" then none else validar_ano y anoRaw
    preco := if precoRaw = "" then none else validar_preco precoRaw }

/-- The batch of INSERTs of `import_csv_file`. -/
def insertRows (y : Int) (header : List String) :
    List (List String) → Store → Store
  | [], st => st
  | r :: rs, st =>
    insertRows y header rs
      ⟨st.nextId + 1, st.books ++ [rowToBook y st.nextId header r]⟩

/-- `import_csv_file`: when the reader raises (`rows = list(reader)`
precedes `backup_db`), the exception propagates with nothing written and
no snapshot — `(none, s)`; no lines or no data rows return 0 inserted
with nothing else done; otherwise one backup of the pre-import database
is taken, then every row is inserted, returning the inserted count. -/
def import_csv_file (y : Int) (t : Nat) (text : String) (s : Sys) :
    Option Nat × Sys :=
  match csvRead text with
  | none => (none, s)
  | some hr =>
    if hr.2 = [] then (some 0, s)
    else
      (some hr.2.length,
       ⟨insertRows y hr.1 hr.2 s.store, backup_db t s.store s.backups⟩)

def optAnoStr : Option Int → String
  | none => ""
  | some a => intToString a

def optPrecoStr : Option ℚ → String
  | none => ""
  | some p => pyStrFloat p

/-- The four CSV fields written for one book. -/
def bookRowFields (b : Book) : List (List Char) :=
  [b.titulo.toList, b.autor.toList,
   (optAnoStr b.ano).toList, (optPrecoStr b.preco).toList]

def exportHeader : List (List Char) :=
  [("titulo").toList, ("autor").toList,
   ("ano_publicacao").toList, ("preco").toList]

/-- `export_csv_to_memory`: header row then one row per book in id
order, absent optional fields as the empty string. -/
def export_csv_to_memory (st : Store) : String :=
  ⟨writeRow ',' exportHeader ++
    ((listar_livros st).map (fun b => writeRow ',' (bookRowFields b))).flatten⟩

/-! ## Derived notions used by the claims -/

/-- The data-model invariant of §3: stored titles and authors are
non-empty. -/
def NonEmptyInv (st : Store) : Prop :=
  ∀ b ∈ st.books, b.titulo ≠ "" ∧ b.autor ≠ ""

instance decNonEmptyInv (st : Store) : Decidable (NonEmptyInv st) :=
  inferInstanceAs (Decidable (∀ b ∈ st.books, b.titulo ≠ "" ∧ b.autor ≠ ""))

/-- A rational with a finite decimal expansion (every value `float(...)`
accepts in the model). -/
def IsDec (q : ℚ) : Prop :=
  ∃ (n : ℤ) (k : ℕ), q = (n : ℚ) / 10 ^ k

/-- The at-rest shape of a record created through the add route under
clock year `y`: stripped non-empty title and author, year in the valid
range when present, non-negative decimal price when present. -/
def GoodBook (y : Int) (b : Book) : Prop :=
  pyStrip b.titulo = b.titulo ∧ b.titulo ≠ "" ∧
  pyStrip b.autor = b.autor ∧ b.autor ≠ "" ∧
  (∀ a, b.ano = some a → 1000 ≤ a ∧ a ≤ y + 1) ∧
  (∀ p, b.preco = some p → 0 ≤ p ∧ IsDec p)

def GoodStore (y : Int) (st : Store) : Prop :=
  Store.wf st ∧ ∀ b ∈ st.books, GoodBook y b

/-- One add request as received by `POST /api/books` (year and price
arrive as optional raw strings). -/
structure AddReq where
  titulo : String
  autor : String
  ano : Option String
  preco : Option String

def applyAdd (y : Int) (s : Sys) (r : AddReq) : Sys :=
  (api_add y 0 r.titulo r.autor r.ano r.preco s).2

/-- The columns of a record that survive an export/import round trip
(everything except the system-assigned id). -/
def bookData (b : Book) : String × String × Option Int × Option ℚ :=
  (b.titulo, b.autor, b.ano, b.preco)

/-- The books produced by the import batch, with their assigned ids. -/
def buildRows (y : Int) (hdr : List String) : Nat → List (List String) → List Book
  | _, [] => []
  | id, r :: rs => rowToBook y id hdr r :: buildRows y hdr (id + 1) rs

/-! ## Helper lemmas about stripping -/

theorem dropWhile_first_false {p : Char → Bool} :
    ∀ {l : List Char} {c : Char} {rest : List Char},
      l.dropWhile p = c :: rest → p c = false := by
  intro l
  induction l with
  | nil => intro c rest h; simp at h
  | cons a l ih =>
    intro c rest h
    rw [List.dropWhile_cons] at h
    by_cases hp : p a
    · rw [if_pos hp] at h; exact ih h
    · rw [if_neg hp] at h
      cases h
      simpa using hp

theorem exists_append_dropWhile (p : Char → Bool) :
    ∀ l : List Char, ∃ t, l = t ++ l.dropWhile p := by
  intro l
  induction l with
  | nil => exact ⟨[], rfl⟩
  | cons a l ih =>
    rw [List.dropWhile_cons]
    by_cases hp : p a
    · obtain ⟨t, ht⟩ := ih
      exact ⟨a :: t, by simp [hp, ← ht]⟩
    · exact ⟨[], by simp [hp]⟩

theorem dropWhile_of_first_false {p : Char → Bool} {c : Char} {rest : List Char}
    (h : p c = false) : (c :: rest).dropWhile p = c :: rest := by
  simp [List.dropWhile_cons, h]

/-- A stripped string strips to itself. -/
theorem pyStripChars_idem (l : List Char) :
    pyStripChars (pyStripChars l) = pyStripChars l := by
  set m := l.dropWhile isPyWs with hm
  set r := pyStripChars l with hr
  have hrev : r.reverse = m.reverse.dropWhile isPyWs := by
    simp [hr, pyStripChars, hm]
  -- head of r is not whitespace
  have hhead : ∀ c rest, r = c :: rest → isPyWs c = false := by
    intro c rest hc
    obtain ⟨t, ht⟩ := exists_append_dropWhile isPyWs m.reverse
    have hmr : m = r ++ t.reverse := by
      have := congrArg List.reverse ht
      simpa [← hrev, List.reverse_append] using this
    have : m = c :: (rest ++ t.reverse) := by simp [hmr, hc]
    exact dropWhile_first_false (l := l) (by rw [← hm, this])
  -- last of r is not whitespace (first of its reverse)
  have hlast : ∀ c rest, r.reverse = c :: rest → isPyWs c = false := by
    intro c rest hc
    exact dropWhile_first_false (l := m.reverse) (by rw [← hrev, hc])
  show pyStripChars r = r
  cases hcase : r with
  | nil => simp [pyStripChars, hcase]
  | cons c rest =>
    have h1 : r.dropWhile isPyWs = r := by
      rw [hcase]; exact dropWhile_of_first_false (hhead c rest hcase)
    have h2 : r.reverse.dropWhile isPyWs = r.reverse := by
      cases hcr : r.reverse with
      | nil => simp
      | cons c' rest' => exact dropWhile_of_first_false (hlast c' rest' hcr)
    rw [pyStripChars, hcase] at *
    rw [h1, h2]
    simp

theorem pyStrip_idem (s : String) : pyStrip (pyStrip s) = pyStrip s := by
  simp [pyStrip, pyStripChars_idem]

/-! ## C3: update on a missing id -/

/-- C3: for every id not present in the store, `update_preco` returns
not_found and leaves the whole system state — store and backup
directory — unchanged; in particular no snapshot is taken. -/
theorem update_preco_not_found (t : Nat) (livro_id : Nat) (p : ℚ) (s : Sys)
    (h : ∀ b ∈ s.store.books, ¬ b.id = livro_id) :
    update_preco t livro_id p s = (false, s) := by
  have hany : s.store.books.any (fun b => b.id = livro_id) = false := by
    simp only [List.any_eq_false]
    intro b hb
    simpa using h b hb
  simp [update_preco, hany]

/-- Witness for C3 at a concrete store. -/
theorem update_preco_not_found_witness :
    (∀ b ∈ (⟨⟨2, [⟨1, "A", "B", none, none⟩]⟩, []⟩ : Sys).store.books, ¬ b.id = 7) ∧
      update_preco 3 7 (5 : ℚ) ⟨⟨2, [⟨1, "A", "B", none, none⟩]⟩, []⟩ =
        (false, ⟨⟨2, [⟨1, "A", "B", none, none⟩]⟩, []⟩) :=
  ⟨by decide, update_preco_not_found 3 7 5 _ (by decide)⟩

/-! ## C4: validar_ano -/

/-- C4: `validar_ano` returns the parsed year exactly when the input
parses as an integer in `[1000, current_year + 1]`; in every other case
(parse failure or out of range) it returns the `None` sentinel — it is a
total function into `Option`, never an exception. -/
theorem validar_ano_spec (y : Int) (s : String) :
    (∀ n : Int, validar_ano y s = some n ↔
      pyParseInt s = some n ∧ 1000 ≤ n ∧ n ≤ y + 1) ∧
    (validar_ano y s = none ↔
      ∀ n : Int, pyParseInt s = some n → ¬ (1000 ≤ n ∧ n ≤ y + 1)) := by
  constructor
  · intro n
    unfold validar_ano
    cases hp : pyParseInt s with
    | none => simp
    | some a =>
      by_cases hc : 1000 ≤ a ∧ a ≤ y + 1
      · simp only [if_pos hc]
        constructor
        · rintro h; cases h; exact ⟨rfl, hc⟩
        · rintro ⟨ha, _⟩; cases ha; rfl
      · simp only [if_neg hc]
        constructor
        · intro h; cases h
        · rintro ⟨ha, hr⟩; cases ha; exact absurd hr hc
  · unfold validar_ano
    cases hp : pyParseInt s with
    | none => simp
    | some a =>
      by_cases hc : 1000 ≤ a ∧ a ≤ y + 1
      · simp only [if_pos hc]
        constructor
        · intro h; cases h
        · intro h; exact absurd hc (h a rfl)
      · simp only [if_neg hc]
        constructor
        · intro _ n ha; cases ha; exact hc
        · intro _; trivial

/-! ## C5: detect_delimiter -/

/-- C5: `detect_delimiter` returns the comma exactly when the comma
count of the first line is at least the semicolon count, the semicolon
otherwise; checked also on the two documented examples. -/
theorem detect_delimiter_spec :
    (∀ s : String,
      (detect_delimiter s = ',' ↔ strCount s ';' ≤ strCount s ',') ∧
      (detect_delimiter s = ';' ↔ strCount s ',' < strCount s ';')) ∧
    detect_delimiter "a,b;c,d" = ',' ∧ detect_delimiter "a;b;c,d" = ';' := by
  refine ⟨fun s => ?_, by decide, by decide⟩
  unfold detect_delimiter
  by_cases h : strCount s ';' ≤ strCount s ','
  · rw [if_pos h]
    constructor
    · simp [h]
    · constructor
      · intro hc; cases hc
      · intro hlt; omega
  · rw [if_neg h]
    constructor
    · constructor
      · intro hc; cases hc
      · intro hle; exact absurd hle h
    · simp; omega

/-! ## C6: import backup policy -/

/-- C6 counterexample: a classic-Mac CR-terminated CSV carries one data
row, yet `csv.DictReader` raises `_csv.Error` before `backup_db` runs,
so the import propagates the exception with no snapshot taken, no row
inserted and no count returned — while the identical content with LF
terminators imports its one data row. -/
theorem import_csv_bare_cr_cex :
    csvRead "titulo,autor\rA,B" = none ∧
    import_csv_file 2026 3 "titulo,autor\rA,B" Sys.empty = (none, Sys.empty) ∧
    (csvHeaderRows "titulo,autor\nA,B").2 = [["A", "B"]] ∧
    (import_csv_file 2026 3 "titulo,autor\nA,B" Sys.empty).1 = some 1 ∧
    (import_csv_file 2026 3 "titulo,autor\nA,B" Sys.empty).2.backups ≠
      Sys.empty.backups :=
  ⟨by decide, by decide, by decide, by decide, by decide⟩

/-- C6 (amended): an input on which the csv reader raises (a bare CR in
unquoted position followed by further data) makes the import propagate
the exception with no snapshot and no insert; an input that reads as
empty or header-only returns 0 inserted with no snapshot; an input that
reads with at least one data row takes exactly one snapshot — its
content the pre-import database, so it precedes the whole batch — and
inserts all rows, returning their count. -/
theorem import_csv_backup_policy (y : Int) (t : Nat) (text : String) (s : Sys) :
    (csvRead text = none → import_csv_file y t text s = (none, s)) ∧
    (∀ hdr rows, csvRead text = some (hdr, rows) →
      (rows = [] → import_csv_file y t text s = (some 0, s)) ∧
      (rows ≠ [] →
        (import_csv_file y t text s).2.backups = backup_db t s.store s.backups ∧
        (import_csv_file y t text s).1 = some rows.length)) := by
  constructor
  · intro h
    unfold import_csv_file
    rw [h]
  · intro hdr rows h
    unfold import_csv_file
    rw [h]
    constructor
    · intro hr
      simp [hr]
    · intro hr
      simp [hr]

/-- Witness for C6: the raising input, the empty text, a header-only
text and a one-row text, each through the amended theorem. -/
theorem import_csv_backup_policy_witness :
    csvRead "titulo,autor\rA,B,C" = none ∧
    import_csv_file 2026 3 "titulo,autor\rA,B,C" Sys.empty = (none, Sys.empty) ∧
    import_csv_file 2026 3 "" Sys.empty = (some 0, Sys.empty) ∧
    import_csv_file 2026 3 "titulo,autor\n" Sys.empty = (some 0, Sys.empty) ∧
    (import_csv_file 2026 3 "titulo,autor\nA,B" Sys.empty).2.backups =
      backup_db 3 Sys.empty.store Sys.empty.backups ∧
    (import_csv_file 2026 3 "titulo,autor\nA,B" Sys.empty).1 = some 1 :=
  ⟨by decide,
   (import_csv_backup_policy 2026 3 "titulo,autor\rA,B,C" Sys.empty).1 (by decide),
   ((import_csv_backup_policy 2026 3 "" Sys.empty).2 [] [] (by decide)).1 rfl,
   ((import_csv_backup_policy 2026 3 "titulo,autor\n" Sys.empty).2
     ["titulo", "autor"] [] (by decide)).1 rfl,
   (((import_csv_backup_policy 2026 3 "titulo,autor\nA,B" Sys.empty).2
     ["titulo", "autor"] [["A", "B"]] (by decide)).2 (by decide)).1,
   (((import_csv_backup_policy 2026 3 "titulo,autor\nA,B" Sys.empty).2
     ["titulo", "autor"] [["A", "B"]] (by decide)).2 (by decide)).2⟩

/-! ## C8: add then list -/

/-- On a well-formed table the `ORDER BY id` read returns the rows in
insertion order. -/
theorem listar_of_sorted {st : Store}
    (h : st.books.Pairwise (fun a b => a.id < b.id)) :
    listar_livros st = st.books := by
  unfold listar_livros
  exact List.Sorted.insertionSort_eq (List.Pairwise.imp (fun hab => le_of_lt hab) h)

/-- C8: adding a book with title `"T"`, author `"A"` and no year or
price returns the fresh id and extends the listing by exactly one new
entry carrying that title and author and NULL year and price; the
listing stays ordered by id ascending. -/
theorem api_add_basic (y : Int) (t : Nat) (s : Sys) (h : Store.wf s.store) :
    (api_add y t "T" "A" none none s).1 = some s.store.nextId ∧
    listar_livros (api_add y t "T" "A" none none s).2.store
      = listar_livros s.store ++ [⟨s.store.nextId, "T", "A", none, none⟩] ∧
    (listar_livros (api_add y t "T" "A" none none s).2.store).Pairwise
      (fun a b => a.id < b.id) := by
  have hT : pyStrip "T" = "T" := by decide
  have hA : pyStrip "A" = "A" := by decide
  have hadd : api_add y t "T" "A" none none s =
      (some s.store.nextId,
       ⟨⟨s.store.nextId + 1,
         s.store.books ++ [⟨s.store.nextId, "T", "A", none, none⟩]⟩,
        backup_db t s.store s.backups⟩) := by
    simp [api_add, add_livro, hT, hA]
  have hpw : (s.store.books ++ [(⟨s.store.nextId, "T", "A", none, none⟩ : Book)]).Pairwise
      (fun a b => a.id < b.id) := by
    rw [List.pairwise_append]
    refine ⟨h.2, List.pairwise_singleton _ _, ?_⟩
    intro a ha b hb
    simp only [List.mem_singleton] at hb
    subst hb
    exact h.1 a ha
  rw [hadd]
  refine ⟨rfl, ?_, ?_⟩
  · rw [listar_of_sorted h.2, listar_of_sorted hpw]
  · rw [listar_of_sorted hpw]
    exact hpw

/-- Witness for C8 at the empty store. -/
theorem api_add_basic_witness :
    Store.wf Sys.empty.store ∧
    (api_add 2026 0 "T" "A" none none Sys.empty).1 = some 1 ∧
    listar_livros (api_add 2026 0 "T" "A" none none Sys.empty).2.store
      = [⟨1, "T", "A", none, none⟩] :=
  ⟨⟨by decide, by decide⟩,
   (api_add_basic 2026 0 Sys.empty ⟨by decide, by decide⟩).1,
   by
    have := (api_add_basic 2026 0 Sys.empty ⟨by decide, by decide⟩).2.1
    simpa [listar_livros, Sys.empty, Store.empty] using this⟩

/-! ## C10: blank search query -/

theorem containsSub_nil (l : List Char) : containsSub [] l = true := by
  cases l <;> simp [containsSub, startsWithL]

/-- C10: a query that strips to the empty string short-circuits the
search endpoint to the empty list, although the underlying
`LIKE '%%'` match on the empty substring accepts every book. -/
theorem api_search_blank (q : String) (st : Store) (h : pyStrip q = "") :
    api_search q st = [] ∧ search_autor "" st = listar_livros st := by
  refine ⟨by simp [api_search, h], ?_⟩
  unfold search_autor
  rw [List.filter_eq_self.mpr]
  intro b _
  simp [likeContains, containsSub_nil]

/-- Witness for C10: a whitespace-only query on a one-book store. -/
theorem api_search_blank_witness :
    pyStrip "  " = "" ∧
    api_search "  " ⟨2, [⟨1, "T", "A", none, none⟩]⟩ = [] ∧
    search_autor "" ⟨2, [⟨1, "T", "A", none, none⟩]⟩ =
      listar_livros ⟨2, [⟨1, "T", "A", none, none⟩]⟩ :=
  ⟨by decide,
   (api_search_blank "  " ⟨2, [⟨1, "T", "A", none, none⟩]⟩ (by decide)).1,
   (api_search_blank "  " ⟨2, [⟨1, "T", "A", none, none⟩]⟩ (by decide)).2⟩

/-! ## C2: backup retention -/

/-- `backup_db` on an already-sorted directory whose files are all older
than the new snapshot: the new file goes first, then the retention cut. -/
theorem backup_db_desc (t : Nat) (c : Store) (files : List BackupFile)
    (hs : files.Pairwise (fun a b => b.mtime ≤ a.mtime))
    (ht : ∀ f ∈ files, f.mtime ≤ t) :
    backup_db t c files = ((⟨t, c⟩ : BackupFile) :: files).take MAX_BACKUPS_TO_KEEP := by
  unfold backup_db prune_old_backups
  congr 1
  exact List.Sorted.insertionSort_eq (List.pairwise_cons.mpr ⟨ht, hs⟩)

/-- C2: a snapshot followed by the prune never leaves more than the
retention count of files; and six sequential snapshots at increasing
times starting from an empty directory leave exactly the five most
recent, the oldest removed. -/
theorem backup_retention :
    (∀ (t : Nat) (db : Store) (files : List BackupFile),
      (backup_db t db files).length ≤ MAX_BACKUPS_TO_KEEP) ∧
    (∀ (t1 t2 t3 t4 t5 t6 : Nat) (c1 c2 c3 c4 c5 c6 : Store),
      t1 < t2 → t2 < t3 → t3 < t4 → t4 < t5 → t5 < t6 →
      (backup_db t6 c6 (backup_db t5 c5 (backup_db t4 c4 (backup_db t3 c3
          (backup_db t2 c2 (backup_db t1 c1 [])))))).map BackupFile.mtime
          = [t6, t5, t4, t3, t2] ∧
        t1 ∉ (backup_db t6 c6 (backup_db t5 c5 (backup_db t4 c4 (backup_db t3 c3
          (backup_db t2 c2 (backup_db t1 c1 [])))))).map BackupFile.mtime) := by
  constructor
  · intro t db files
    unfold backup_db prune_old_backups
    simp
  · intro t1 t2 t3 t4 t5 t6 c1 c2 c3 c4 c5 c6 h12 h23 h34 h45 h56
    have e1 : backup_db t1 c1 [] = [⟨t1, c1⟩] := by
      rw [backup_db_desc t1 c1 [] (by simp) (by simp)]
      simp [MAX_BACKUPS_TO_KEEP]
    have e2 : backup_db t2 c2 [⟨t1, c1⟩] = [⟨t2, c2⟩, ⟨t1, c1⟩] := by
      rw [backup_db_desc t2 c2 _ (by simp) (by simp; omega)]
      simp [MAX_BACKUPS_TO_KEEP]
    have e3 : backup_db t3 c3 [⟨t2, c2⟩, ⟨t1, c1⟩]
        = [⟨t3, c3⟩, ⟨t2, c2⟩, ⟨t1, c1⟩] := by
      rw [backup_db_desc t3 c3 _ (by simp [List.pairwise_cons]; omega)
        (by simp; omega)]
      simp [MAX_BACKUPS_TO_KEEP]
    have e4 : backup_db t4 c4 [⟨t3, c3⟩, ⟨t2, c2⟩, ⟨t1, c1⟩]
        = [⟨t4, c4⟩, ⟨t3, c3⟩, ⟨t2, c2⟩, ⟨t1, c1⟩] := by
      rw [backup_db_desc t4 c4 _ (by simp [List.pairwise_cons]; omega)
        (by simp; omega)]
      simp [MAX_BACKUPS_TO_KEEP]
    have e5 : backup_db t5 c5 [⟨t4, c4⟩, ⟨t3, c3⟩, ⟨t2, c2⟩, ⟨t1, c1⟩]
        = [⟨t5, c5⟩, ⟨t4, c4⟩, ⟨t3, c3⟩, ⟨t2, c2⟩, ⟨t1, c1⟩] := by
      rw [backup_db_desc t5 c5 _ (by simp [List.pairwise_cons]; omega)
        (by simp; omega)]
      simp [MAX_BACKUPS_TO_KEEP]
    have e6 : backup_db t6 c6 [⟨t5, c5⟩, ⟨t4, c4⟩, ⟨t3, c3⟩, ⟨t2, c2⟩, ⟨t1, c1⟩]
        = [⟨t6, c6⟩, ⟨t5, c5⟩, ⟨t4, c4⟩, ⟨t3, c3⟩, ⟨t2, c2⟩] := by
      rw [backup_db_desc t6 c6 _ (by simp [List.pairwise_cons]; omega)
        (by simp; omega)]
      simp [MAX_BACKUPS_TO_KEEP]
    rw [e1, e2, e3, e4, e5, e6]
    constructor
    · simp
    · simp
      omega

/-- Witness for C2 at times 1..6. -/
theorem backup_retention_witness :
    (backup_db 6 Store.empty (backup_db 5 Store.empty (backup_db 4 Store.empty
        (backup_db 3 Store.empty (backup_db 2 Store.empty
          (backup_db 1 Store.empty [])))))).map BackupFile.mtime
        = [6, 5, 4, 3, 2] ∧
      (1 : Nat) ∉ (backup_db 6 Store.empty (backup_db 5 Store.empty (backup_db 4 Store.empty
        (backup_db 3 Store.empty (backup_db 2 Store.empty
          (backup_db 1 Store.empty [])))))).map BackupFile.mtime :=
  backup_retention.2 1 2 3 4 5 6 Store.empty Store.empty Store.empty
    Store.empty Store.empty Store.empty (by decide) (by decide) (by decide)
    (by decide) (by decide)

/-! ## C1: non-empty title/author at rest -/

/-- Every book inserted by the import batch is an old book or one built
by `rowToBook` from some imported row. -/
theorem mem_insertRows {y : Int} {hdr : List String} :
    ∀ {rows : List (List String)} {st : Store} {b : Book},
      b ∈ (insertRows y hdr rows st).books →
      b ∈ st.books ∨ ∃ r ∈ rows, ∃ id, b = rowToBook y id hdr r := by
  intro rows
  induction rows with
  | nil => intro st b hb; exact Or.inl hb
  | cons r rs ih =>
    intro st b hb
    rcases ih hb with h | ⟨r', hr', id, hid⟩
    · rcases List.mem_append.mp h with h | h
      · exact Or.inl h
      · simp only [List.mem_singleton] at h
        exact Or.inr ⟨r, List.mem_cons_self _ _, st.nextId, h⟩
    · exact Or.inr ⟨r', List.mem_cons_of_mem _ hr', id, hid⟩

/-- C1 counterexample: importing a CSV whose data row has empty title
and author fields stores a book with empty title and author, so
`import_csv` does not preserve the non-emptiness invariant claimed for
every mutating operation. -/
theorem import_empty_title_cex :
    NonEmptyInv Sys.empty.store ∧
    ¬ NonEmptyInv (import_csv_file 2026 0 "titulo,autor\n," Sys.empty).2.store := by
  constructor
  · intro b hb; cases hb
  · decide

/-- C1 (amended): the add route (which rejects blank titles/authors),
`update_preco` and `delete_livro` preserve the non-emptiness invariant;
`import_csv_file` preserves it only under the extra assumption that
every imported row carries non-empty stripped title and author fields —
in general it can store records violating the invariant. -/
theorem nonempty_at_rest (y : Int) (t : Nat) (s : Sys) (h : NonEmptyInv s.store) :
    (∀ tr ar ano preco, NonEmptyInv (api_add y t tr ar ano preco s).2.store) ∧
    (∀ id p, NonEmptyInv (update_preco t id p s).2.store) ∧
    (∀ id, NonEmptyInv (delete_livro t id s).2.store) ∧
    (∀ text,
      (∀ r ∈ (csvHeaderRows text).2,
        pyStrip (rawField (csvHeaderRows text).1 r "titulo" "title") ≠ "" ∧
        pyStrip (rawField (csvHeaderRows text).1 r "autor" "author") ≠ "") →
      NonEmptyInv (import_csv_file y t text s).2.store) := by
  refine ⟨?_, ?_, ?_, ?_⟩
  · intro tr ar ano preco
    unfold api_add
    by_cases hta : pyStrip tr = "" ∨ pyStrip ar = ""
    · simp only [if_pos hta]; exact h
    · simp only [if_neg hta]
      push_neg at hta
      cases hv1 : (match ano with
                   | none => some none
                   | some a => if a = "" then some none else (validar_ano y a).map some) with
      | none => exact h
      | some anoVal =>
        cases hv2 : (match preco with
                     | none => some none
                     | some p => if p = "" then some none else (validar_preco p).map some) with
        | none => exact h
        | some precoVal =>
          intro b hb
          simp only [add_livro, List.mem_append, List.mem_singleton] at hb
          rcases hb with hb | hb
          · exact h b hb
          · subst hb
            refine ⟨?_, ?_⟩ <;> simp only [pyStrip_idem]
            · exact hta.1
            · exact hta.2
  · intro id p
    unfold update_preco
    by_cases hex : s.store.books.any (fun b => b.id = id)
    · simp only [if_pos hex]
      intro b hb
      simp only [List.mem_map] at hb
      obtain ⟨a, ha, hab⟩ := hb
      by_cases hid : a.id = id
      · rw [← hab]
        simp only [if_pos hid]
        exact h a ha
      · rw [← hab]
        simp only [if_neg hid]
        exact h a ha
    · simp only [if_neg hex]; exact h
  · intro id
    unfold delete_livro
    by_cases hex : s.store.books.any (fun b => b.id = id)
    · simp only [if_pos hex]
      intro b hb
      exact h b (List.mem_of_mem_filter hb)
    · simp only [if_neg hex]; exact h
  · intro text hrows
    unfold import_csv_file
    cases hcr : csvRead text with
    | none => exact h
    | some hr =>
      have hch : csvHeaderRows text = hr := by
        unfold csvHeaderRows
        rw [hcr]
        rfl
      by_cases hre : hr.2 = []
      · simp only [if_pos hre]
        exact h
      · simp only [if_neg hre]
        intro b hb
        rcases mem_insertRows hb with hb | ⟨r, hrm, id, hid⟩
        · exact h b hb
        · subst hid
          have h2 := hrows r (by rw [hch]; exact hrm)
          rw [hch] at h2
          exact h2

/-- Witness for the amended C1 at the empty store. -/
theorem nonempty_at_rest_witness :
    NonEmptyInv Sys.empty.store ∧
    NonEmptyInv (api_add 2026 0 "T" "A" none none Sys.empty).2.store ∧
    NonEmptyInv (update_preco 0 1 (5 : ℚ) Sys.empty).2.store ∧
    NonEmptyInv (delete_livro 0 1 Sys.empty).2.store ∧
    NonEmptyInv (import_csv_file 2026 0 "titulo,autor\nA,B" Sys.empty).2.store :=
  ⟨by decide,
   (nonempty_at_rest 2026 0 Sys.empty (by decide)).1 "T" "A" none none,
   (nonempty_at_rest 2026 0 Sys.empty (by decide)).2.1 1 5,
   (nonempty_at_rest 2026 0 Sys.empty (by decide)).2.2.1 1,
   (nonempty_at_rest 2026 0 Sys.empty (by decide)).2.2.2 "titulo,autor\nA,B"
     (by decide)⟩

/-! ## C7: tolerant row import -/

/-- The batch insert in full: every data row becomes exactly one book,
ids consecutive from the pre-import counter. -/
theorem insertRows_eq_buildRows (y : Int) (hdr : List String) :
    ∀ (rows : List (List String)) (st : Store),
      (insertRows y hdr rows st).books
        = st.books ++ buildRows y hdr st.nextId rows := by
  intro rows
  induction rows with
  | nil => intro st; simp [insertRows, buildRows]
  | cons r rs ih =>
    intro st
    rw [insertRows, ih, buildRows]
    simp

/-- C7 counterexample: an input whose single data row is CR-terminated
is rejected whole — the reader raises, nothing is inserted and no count
is returned — although the identical content with an LF terminator
inserts its one row; so the returned count does not equal the number of
data rows for every input. -/
theorem import_csv_row_rejected_cex :
    import_csv_file 2026 0 "titulo,autor,ano_publicacao\rA,B,1999" Sys.empty
      = (none, Sys.empty) ∧
    (import_csv_file 2026 0 "titulo,autor,ano_publicacao\nA,B,1999" Sys.empty).1
      = some 1 ∧
    ((import_csv_file 2026 0 "titulo,autor,ano_publicacao\nA,B,1999"
      Sys.empty).2.store.books).length = 1 :=
  ⟨by decide, by decide, by decide⟩

/-- C7 (amended): when the reader succeeds, the import inserts every
parsed data row — the returned count equals the number of data rows —
and a row whose year or price fails validation is stored with a NULL
year or price, never rejected; when the reader raises (an unquoted bare
CR followed by further data), no row is inserted and no count is
returned. -/
theorem import_csv_tolerant (y : Int) (t : Nat) (text : String) (s : Sys) :
    (csvRead text = none → import_csv_file y t text s = (none, s)) ∧
    (∀ hdr rows, csvRead text = some (hdr, rows) →
      (import_csv_file y t text s).1 = some rows.length ∧
      (import_csv_file y t text s).2.store.books
        = s.store.books ++ buildRows y hdr s.store.nextId rows) ∧
    (∀ (id : Nat) (hdr : List String) (r : List String),
      (validar_ano y (rawField hdr r "ano_publicacao" "year") = none →
        (rowToBook y id hdr r).ano = none) ∧
      (validar_preco (rawField hdr r "preco" "price") = none →
        (rowToBook y id hdr r).preco = none)) := by
  refine ⟨?_, ?_, ?_⟩
  · intro h
    unfold import_csv_file
    rw [h]
  · intro hdr rows h
    unfold import_csv_file
    rw [h]
    by_cases hr : rows = []
    · subst hr
      simp [buildRows]
    · simp only [if_neg (by simpa using hr)]
      exact ⟨trivial, insertRows_eq_buildRows y hdr rows s.store⟩
  · intro id hdr r
    constructor
    · intro hn
      by_cases ha : rawField hdr r "ano_publicacao" "year" = "" <;>
        simp [rowToBook, ha, hn]
    · intro hn
      by_cases hp : rawField hdr r "preco" "price" = "" <;>
        simp [rowToBook, hp, hn]

/-- Witness for C7: a row with an unparseable year is inserted with a
NULL year, and a raising input inserts nothing. -/
theorem import_csv_tolerant_witness :
    (import_csv_file 2026 0 "titulo,autor,ano_publicacao\nA,B,heyo" Sys.empty).1
      = some 1 ∧
    validar_ano 2026 (rawField ["titulo", "autor", "ano_publicacao"]
      ["A", "B", "heyo"] "ano_publicacao" "year") = none ∧
    (rowToBook 2026 1 ["titulo", "autor", "ano_publicacao"]
      ["A", "B", "heyo"]).ano = none ∧
    import_csv_file 2026 0 "titulo,autor\rX,Y" Sys.empty = (none, Sys.empty) :=
  ⟨((import_csv_tolerant 2026 0 "titulo,autor,ano_publicacao\nA,B,heyo" Sys.empty).2.1
     ["titulo", "autor", "ano_publicacao"] [["A", "B", "heyo"]] (by decide)).1,
   by decide,
   ((import_csv_tolerant 2026 0 "titulo,autor,ano_publicacao\nA,B,heyo" Sys.empty).2.2 1
     ["titulo", "autor", "ano_publicacao"] ["A", "B", "heyo"]).1 (by decide),
   (import_csv_tolerant 2026 0 "titulo,autor\rX,Y" Sys.empty).1 (by decide)⟩

/-! ## Digit strings: rendering and reparsing -/

theorem mk_toList (s : String) : (⟨s.toList⟩ : String) = s := by
  cases s; rfl

theorem mk_eq_mk {l l' : List Char} : (⟨l⟩ : String) = (⟨l'⟩ : String) ↔ l = l' := by
  constructor
  · intro h; cases h; rfl
  · intro h; rw [h]

theorem mk_ne_empty {l : List Char} (h : l ≠ []) : (⟨l⟩ : String) ≠ "" := by
  intro he
  exact h (mk_eq_mk.mp he)

theorem digitVal_digitChar10 {d : Nat} (h : d < 10) :
    digitVal (digitChar10 d) = d := by
  interval_cases d <;> decide

theorem isDigitC_digitChar10 {d : Nat} (h : d < 10) :
    isDigitC (digitChar10 d) = true := by
  interval_cases d <;> decide

theorem isDigitC_not_ws {c : Char} (h : isDigitC c = true) : isPyWs c = false := by
  simp only [isDigitC, Bool.and_eq_true, decide_eq_true_eq] at h
  simp only [isPyWs, Bool.or_eq_false_iff, decide_eq_false_iff_not]
  refine ⟨⟨⟨⟨⟨?_, ?_⟩, ?_⟩, ?_⟩, ?_⟩, ?_⟩ <;>
    · rintro rfl
      exact absurd h.1 (by decide)

theorem isDigitC_ne_plus {c : Char} (h : isDigitC c = true) : ¬ c = '+' := by
  rintro rfl; exact absurd h (by decide)

theorem isDigitC_ne_minus {c : Char} (h : isDigitC c = true) : ¬ c = '-' := by
  rintro rfl; exact absurd h (by decide)

theorem isDigitC_ne_underscore {c : Char} (h : isDigitC c = true) : ¬ c = '_' := by
  rintro rfl; exact absurd h (by decide)

theorem dropWhile_eq_self_of_all_false {p : Char → Bool} {l : List Char}
    (h : ∀ c ∈ l, p c = false) : l.dropWhile p = l := by
  cases l with
  | nil => rfl
  | cons c rest => exact dropWhile_of_first_false (h c (List.mem_cons_self _ _))

theorem pyStripChars_of_no_ws {l : List Char}
    (h : ∀ c ∈ l, isPyWs c = false) : pyStripChars l = l := by
  unfold pyStripChars
  rw [dropWhile_eq_self_of_all_false h,
    dropWhile_eq_self_of_all_false (by intro c hc; exact h c (List.mem_reverse.mp hc)),
    List.reverse_reverse]

theorem natChars_ne_nil (n : Nat) : natChars n ≠ [] := by
  unfold natChars
  by_cases h : n = 0
  · simp [h]
  · simp only [if_neg h]
    intro he
    have : Nat.digits 10 n = [] := by
      have := congrArg List.reverse he
      simp at this
      exact this
    rw [Nat.digits_eq_nil_iff_eq_zero] at this
    exact h this

theorem natChars_all_digits (n : Nat) : ∀ c ∈ natChars n, isDigitC c = true := by
  unfold natChars
  by_cases h : n = 0
  · simp [h]; decide
  · simp only [if_neg h]
    intro c hc
    rw [List.mem_reverse] at hc
    obtain ⟨d, hd, rfl⟩ := List.mem_map.mp hc
    exact isDigitC_digitChar10 (Nat.digits_lt_base (by norm_num) hd)

theorem foldl_digits_rev (ds : List Nat) (hlt : ∀ d ∈ ds, d < 10) :
    ∀ acc : Nat,
      ((ds.map digitChar10).reverse.foldl (fun a c => a * 10 + digitVal c) acc)
        = acc * 10 ^ ds.length + Nat.ofDigits 10 ds := by
  induction ds with
  | nil => intro acc; simp
  | cons d ds ih =>
    intro acc
    have hd : d < 10 := hlt d (List.mem_cons_self _ _)
    have hds : ∀ x ∈ ds, x < 10 := fun x hx => hlt x (List.mem_cons_of_mem _ hx)
    simp only [List.map_cons, List.reverse_cons, List.foldl_append, List.foldl_cons,
      List.foldl_nil]
    rw [ih hds acc, digitVal_digitChar10 hd, Nat.ofDigits_cons]
    simp [List.length_cons, pow_succ]
    ring

theorem charsVal_natChars (n : Nat) : charsVal (natChars n) = n := by
  unfold charsVal natChars
  by_cases h : n = 0
  · simp [h]; decide
  · simp only [if_neg h]
    rw [foldl_digits_rev _ (fun d hd => Nat.digits_lt_base (by norm_num) hd) 0]
    simp [Nat.ofDigits_digits]

/-! ### takeDigits and parseDigitsAux over digit runs -/

theorem takeDigitsMore_append {ds r : List Char}
    (hds : ∀ c ∈ ds, isDigitC c = true)
    (hr : r = [] ∨ ∃ c r', r = c :: r' ∧ isDigitC c = false ∧ ¬ c = '_') :
    takeDigitsMore (ds ++ r) = (ds, r) := by
  induction ds with
  | nil =>
    rcases hr with rfl | ⟨c, r', rfl, hc, hcu⟩
    · rfl
    · rw [List.nil_append, takeDigitsMore.eq_def]
      simp only [if_neg hcu, hc]
      simp
  | cons d ds ih =>
    have hd : isDigitC d = true := hds d (List.mem_cons_self _ _)
    rw [List.cons_append, takeDigitsMore.eq_def]
    simp only [if_neg (isDigitC_ne_underscore hd), hd, if_true,
      ih (fun c hc => hds c (List.mem_cons_of_mem _ hc))]

theorem takeDigits_append {ds r : List Char}
    (hds : ∀ c ∈ ds, isDigitC c = true) (hne : ds ≠ [])
    (hr : r = [] ∨ ∃ c r', r = c :: r' ∧ isDigitC c = false ∧ ¬ c = '_') :
    takeDigits (ds ++ r) = (ds, r) := by
  cases ds with
  | nil => exact absurd rfl hne
  | cons d ds =>
    have hd : isDigitC d = true := hds d (List.mem_cons_self _ _)
    rw [List.cons_append, takeDigits.eq_def]
    simp only [hd, if_true,
      takeDigitsMore_append (fun c hc => hds c (List.mem_cons_of_mem _ hc)) hr]

theorem parseDigitsAux_all_digits {ds : List Char}
    (hds : ∀ c ∈ ds, isDigitC c = true) :
    ∀ acc : Nat, parseDigitsAux ds acc
      = some (ds.foldl (fun a c => a * 10 + digitVal c) acc) := by
  induction ds with
  | nil => intro acc; rfl
  | cons d ds ih =>
    intro acc
    have hd : isDigitC d = true := hds d (List.mem_cons_self _ _)
    rw [parseDigitsAux.eq_def]
    simp only [if_neg (isDigitC_ne_underscore hd), hd, if_true,
      ih (fun c hc => hds c (List.mem_cons_of_mem _ hc))]
    rfl

theorem parseUnsigned_natChars (m : Nat) : parseUnsigned (natChars m) = some m := by
  obtain ⟨c, rest, hc⟩ : ∃ c rest, natChars m = c :: rest := by
    cases h : natChars m with
    | nil => exact absurd h (natChars_ne_nil m)
    | cons c rest => exact ⟨c, rest, rfl⟩
  have hall := natChars_all_digits m
  rw [hc] at hall ⊢
  have hd : isDigitC c = true := hall c (List.mem_cons_self _ _)
  rw [parseUnsigned.eq_def]
  simp only [hd, if_true,
    parseDigitsAux_all_digits (fun x hx => hall x (List.mem_cons_of_mem _ hx))]
  have hv : rest.foldl (fun a c => a * 10 + digitVal c) (digitVal c)
      = charsVal (c :: rest) := by
    simp [charsVal]
  rw [hv, ← hc, charsVal_natChars]

/-- `str` of a non-negative integer reparses to itself with `int(...)`. -/
theorem pyParseIntChars_intChars {a : Int} (h : 0 ≤ a) :
    pyParseIntChars (intChars a) = some a := by
  have hi : intChars a = natChars a.natAbs := by
    unfold intChars
    rw [if_neg (by omega)]
  obtain ⟨c, rest, hc⟩ : ∃ c rest, natChars a.natAbs = c :: rest := by
    cases hx : natChars a.natAbs with
    | nil => exact absurd hx (natChars_ne_nil _)
    | cons c rest => exact ⟨c, rest, rfl⟩
  have hall := natChars_all_digits a.natAbs
  rw [hc] at hall
  have hd : isDigitC c = true := hall c (List.mem_cons_self _ _)
  have hstrip : pyStripChars (natChars a.natAbs) = natChars a.natAbs :=
    pyStripChars_of_no_ws (fun x hx => isDigitC_not_ws (natChars_all_digits _ x hx))
  rw [pyParseIntChars, hi, hstrip, hc]
  simp only [if_neg (isDigitC_ne_plus hd), if_neg (isDigitC_ne_minus hd)]
  rw [← hc, parseUnsigned_natChars]
  simp [Int.natAbs_of_nonneg h]

theorem pyParseInt_intToString {a : Int} (h : 0 ≤ a) :
    pyParseInt (intToString a) = some a :=
  pyParseIntChars_intChars h

/-! ## Floats: decimal rationals, rendering, reparsing -/

/-- A divisor of a power of ten divides the power with exponent itself. -/
theorem dvd_ten_pow_self : ∀ d : ℕ, (∃ k, d ∣ 10 ^ k) → d ∣ 10 ^ d := by
  intro d
  induction d using Nat.strong_induction_on with
  | _ d ih =>
    rintro ⟨k, hk⟩
    rcases Nat.lt_or_ge d 2 with hd2 | hd2
    · interval_cases d
      · rw [zero_dvd_iff] at hk
        exact absurd hk (by positivity)
      · exact one_dvd _
    · set g := Nat.gcd d 10 with hg
      have hg1 : g ≠ 1 := by
        intro h1
        have : d = 1 := (Nat.Coprime.pow_right k h1).eq_one_of_dvd hk
        omega
      have hgd : g ∣ d := Nat.gcd_dvd_left d 10
      have hg10 : g ∣ 10 := Nat.gcd_dvd_right d 10
      have hg0 : g ≠ 0 := by
        intro h0
        rw [h0, zero_dvd_iff] at hgd
        omega
      set d' := d / g with hd'
      have hdd : d' * g = d := Nat.div_mul_cancel hgd
      have hd'lt : d' < d := Nat.div_lt_self (by omega) (by omega)
      have hd'd : d' ∣ d := ⟨g, hdd.symm⟩
      have ih' : d' ∣ 10 ^ d' := ih d' hd'lt ⟨k, dvd_trans hd'd hk⟩
      have hstep : d ∣ 10 ^ (d' + 1) := by
        rw [← hdd, pow_succ]
        exact mul_dvd_mul ih' hg10
      exact dvd_trans hstep (pow_dvd_pow 10 (by omega))

theorem decExp_dvd {d : ℕ} (h : ∃ k, d ∣ 10 ^ k) :
    ∃ j, decExp d = some j ∧ d ∣ 10 ^ j := by
  have h10 : d ∣ 10 ^ d := dvd_ten_pow_self d h
  have hsome : (List.find? (fun k => decide (d ∣ 10 ^ k)) (List.range (d + 1))).isSome := by
    rw [List.find?_isSome]
    exact ⟨d, by simp, by simpa using h10⟩
  obtain ⟨j, hj⟩ := Option.isSome_iff_exists.mp hsome
  refine ⟨j, hj, ?_⟩
  simpa using List.find?_some hj

theorem den_dvd_pow_of_isDec {q : ℚ} (h : IsDec q) : ∃ k, q.den ∣ 10 ^ k := by
  obtain ⟨n, k, hq⟩ := h
  refine ⟨k, ?_⟩
  have h1 : q = Rat.divInt n ((10 : ℤ) ^ k) := by
    rw [hq, Rat.divInt_eq_div]
    push_cast
    ring
  have h2 : ((q.den : ℤ)) ∣ (10 : ℤ) ^ k := by
    rw [h1]
    exact Rat.den_dvd n (10 ^ k)
  have h3 : ((q.den : ℤ)) ∣ ((10 ^ k : ℕ) : ℤ) := by
    push_cast
    exact h2
  exact_mod_cast h3

theorem isDec_nat_zpow (N : ℕ) (z : ℤ) : IsDec ((N : ℚ) * (10 : ℚ) ^ z) := by
  rcases le_or_lt 0 z with hz | hz
  · refine ⟨(N : ℤ) * 10 ^ z.toNat, 0, ?_⟩
    push_cast
    rw [pow_zero, div_one, ← zpow_natCast (10 : ℚ) z.toNat, Int.toNat_of_nonneg hz]
  · refine ⟨(N : ℤ), (-z).toNat, ?_⟩
    push_cast
    rw [← zpow_natCast (10 : ℚ) (-z).toNat, Int.toNat_of_nonneg (by omega)]
    rw [div_eq_mul_inv, ← zpow_neg, neg_neg]

theorem isDec_neg {q : ℚ} (h : IsDec q) : IsDec (-q) := by
  obtain ⟨n, k, rfl⟩ := h
  exact ⟨-n, k, by push_cast; ring⟩

theorem pyParseUFloat_isDec {cs : List Char} {q : ℚ}
    (h : pyParseUFloat cs = some q) : IsDec q := by
  rw [pyParseUFloat] at h
  split at h
  · cases h
  · split at h
    · cases h
    · rw [Option.some.injEq] at h
      rw [← h]
      exact isDec_nat_zpow _ _

theorem pyParseFloatChars_isDec {cs : List Char} {q : ℚ}
    (h : pyParseFloatChars cs = some q) : IsDec q := by
  rw [pyParseFloatChars] at h
  split at h
  · cases h
  · split at h
    · exact pyParseUFloat_isDec h
    · split at h
      · obtain ⟨q', hq', hneg⟩ := Option.map_eq_some'.mp h
        rw [← hneg]
        exact isDec_neg (pyParseUFloat_isDec hq')
      · exact pyParseUFloat_isDec h

/-- Fields validated by `validar_preco` are non-negative decimals. -/
theorem validar_preco_good {s : String} {p : ℚ}
    (h : validar_preco s = some p) : 0 ≤ p ∧ IsDec p := by
  unfold validar_preco at h
  split at h
  · rename_i p' heq
    split at h
    · rename_i h0
      cases h
      exact ⟨h0, pyParseFloatChars_isDec heq⟩
    · cases h
  · cases h

/-- Fields validated by `validar_ano` are in the documented range. -/
theorem validar_ano_bounds {y : Int} {s : String} {a : Int}
    (h : validar_ano y s = some a) : 1000 ≤ a ∧ a ≤ y + 1 := by
  unfold validar_ano at h
  split at h
  · rename_i a' heq
    split at h
    · rename_i hc
      cases h
      exact hc
    · cases h
  · cases h

/-! ### padDigits facts -/

theorem foldl_replicate_zero :
    ∀ z : ℕ, (List.replicate z '0').foldl (fun a c => a * 10 + digitVal c) 0 = 0 := by
  intro z
  induction z with
  | zero => rfl
  | succ z ih => simpa [List.replicate_succ] using ih

theorem charsVal_padDigits (k n : ℕ) : charsVal (padDigits k n) = n := by
  unfold charsVal padDigits
  rw [List.foldl_append, foldl_replicate_zero,
    foldl_digits_rev _ (fun d hd => Nat.digits_lt_base (by norm_num) hd) 0]
  simp [Nat.ofDigits_digits]

theorem padDigits_all_digits (k n : ℕ) :
    ∀ c ∈ padDigits k n, isDigitC c = true := by
  intro c hc
  rcases List.mem_append.mp hc with h | h
  · rw [List.eq_of_mem_replicate h]
    decide
  · rw [List.mem_reverse] at h
    obtain ⟨d, hd, rfl⟩ := List.mem_map.mp h
    exact isDigitC_digitChar10 (Nat.digits_lt_base (by norm_num) hd)

theorem padDigits_length {k n : ℕ} (h : n < 10 ^ k) :
    (padDigits k n).length = k := by
  unfold padDigits
  rw [List.length_append, List.length_replicate, List.length_reverse, List.length_map]
  have hlen : (Nat.digits 10 n).length ≤ k := by
    by_cases h0 : n = 0
    · simp [h0]
    · by_contra hgt
      push_neg at hgt
      have h1 : 10 ^ (Nat.digits 10 n).length ≤ 10 * n :=
        Nat.base_pow_length_digits_le 10 n (by norm_num) h0
      have h4 : 10 ^ (k + 1) ≤ 10 ^ (Nat.digits 10 n).length :=
        Nat.pow_le_pow_right (by norm_num) (by omega)
      have h5 : (10:ℕ) ^ (k + 1) = 10 * 10 ^ k := by ring
      omega
  omega

theorem padDigits_ne_nil {k n : ℕ} (hk : k ≠ 0) (h : n < 10 ^ k) :
    padDigits k n ≠ [] := by
  intro he
  have hl := padDigits_length h
  rw [he] at hl
  simp at hl
  omega

/-! ### The float round trip -/

/-- Evaluation of the unsigned float grammar on `digits.digits`. -/
theorem pyParseUFloat_digits_dot (A : ℕ) (F : List Char)
    (hF : ∀ c ∈ F, isDigitC c = true) (hFne : F ≠ []) :
    pyParseUFloat (natChars A ++ '.' :: F)
      = some (((A * 10 ^ F.length + charsVal F : ℕ) : ℚ) *
          (10 : ℚ) ^ ((0 : ℤ) - (F.length : ℤ))) := by
  have htdI : takeDigits (natChars A ++ '.' :: F) = (natChars A, '.' :: F) :=
    takeDigits_append (natChars_all_digits A) (natChars_ne_nil A)
      (Or.inr ⟨'.', F, rfl, by decide, by decide⟩)
  have htdF : takeDigits F = (F, []) := by
    have := takeDigits_append hF hFne (Or.inl rfl)
    simpa using this
  rw [pyParseUFloat]
  simp only [htdI, htdF, eq_self_iff_true, if_true]
  rw [if_neg (by simp [natChars_ne_nil])]
  simp [parseExpPart, charsVal_natChars]

/-- The sign/strip wrapper is the identity on `digits.digits`. -/
theorem pyParseFloatChars_digits_dot (A : ℕ) (F : List Char)
    (hF : ∀ c ∈ F, isDigitC c = true) :
    pyParseFloatChars (natChars A ++ '.' :: F)
      = pyParseUFloat (natChars A ++ '.' :: F) := by
  have hstrip : pyStripChars (natChars A ++ '.' :: F) = natChars A ++ '.' :: F := by
    apply pyStripChars_of_no_ws
    intro c hc
    rcases List.mem_append.mp hc with h | h
    · exact isDigitC_not_ws (natChars_all_digits A c h)
    · rcases List.mem_cons.mp h with rfl | h
      · decide
      · exact isDigitC_not_ws (hF c h)
  obtain ⟨c, cs', hc⟩ : ∃ c cs', natChars A = c :: cs' := by
    cases hx : natChars A with
    | nil => exact absurd hx (natChars_ne_nil _)
    | cons c cs' => exact ⟨c, cs', rfl⟩
  have hd : isDigitC c = true := by
    have := natChars_all_digits A
    rw [hc] at this
    exact this c (List.mem_cons_self _ _)
  rw [pyParseFloatChars, hstrip, hc, List.cons_append]
  simp only [if_neg (isDigitC_ne_plus hd), if_neg (isDigitC_ne_minus hd)]

/-- Core round trip: a non-negative decimal rational reparses from its
rendering to exactly itself. -/
theorem pyParseFloatChars_pyStrFloatChars {q : ℚ} (hq : 0 ≤ q) (hd : IsDec q) :
    pyParseFloatChars (pyStrFloatChars q) = some q := by
  obtain ⟨j, hj, hdvd⟩ := decExp_dvd (den_dvd_pow_of_isDec hd)
  have hnlt : ¬ q < 0 := not_lt.mpr hq
  have hnum0 : 0 ≤ q.num := Rat.num_nonneg.mpr hq
  set m := q.num.natAbs * 10 ^ j / q.den with hm
  have hmden : m * q.den = q.num.natAbs * 10 ^ j :=
    Nat.div_mul_cancel (Dvd.dvd.mul_left hdvd _)
  have hmq : (m : ℚ) = q * 10 ^ j := by
    have hc : (m : ℚ) * (q.den : ℚ) = (q.num.natAbs : ℚ) * (10 : ℚ) ^ j := by
      exact_mod_cast congrArg (fun x : ℕ => (x : ℚ)) hmden
    have habs : ((q.num.natAbs : ℕ) : ℚ) = (q.num : ℚ) := by
      rw [Int.cast_natAbs, abs_of_nonneg hnum0]
    rw [habs] at hc
    have hden : ((q.den : ℕ) : ℚ) ≠ 0 := by
      exact_mod_cast Rat.den_ne_zero q
    rw [← Rat.num_div_den q, div_mul_eq_mul_div, ← hc]
    field_simp
  have hchars : pyStrFloatChars q
      = (if j = 0 then natChars m ++ ['.', '0']
         else natChars (m / 10 ^ j) ++ '.' :: padDigits j (m % 10 ^ j)) := by
    rw [pyStrFloatChars]
    simp only [hj, if_neg hnlt, ← hm]
    by_cases hj0 : j = 0
    · simp [hj0]
    · simp [hj0]
  by_cases hj0 : j = 0
  · subst hj0
    rw [hchars, if_pos rfl]
    have he : natChars m ++ ['.', '0'] = natChars m ++ '.' :: ['0'] := rfl
    rw [he, pyParseFloatChars_digits_dot m ['0'] (by decide),
      pyParseUFloat_digits_dot m ['0'] (by decide) (by decide)]
    congr 1
    have hmq0 : (m : ℚ) = q := by
      rw [hmq]
      simp
    rw [show charsVal ['0'] = 0 from by decide,
      show (['0'] : List Char).length = 1 from rfl,
      show ((0 : ℤ) - ((1 : ℕ) : ℤ)) = (-1 : ℤ) from by norm_num,
      zpow_neg, zpow_one]
    push_cast
    rw [hmq0]
    field_simp
  · rw [hchars, if_neg hj0]
    have hfr : m % 10 ^ j < 10 ^ j := Nat.mod_lt _ (by positivity)
    rw [pyParseFloatChars_digits_dot _ _ (padDigits_all_digits j _),
      pyParseUFloat_digits_dot _ _ (padDigits_all_digits j _)
        (padDigits_ne_nil hj0 hfr)]
    congr 1
    rw [charsVal_padDigits, padDigits_length hfr]
    have hdm : m / 10 ^ j * 10 ^ j + m % 10 ^ j = m := by
      rw [mul_comm]
      exact Nat.div_add_mod m (10 ^ j)
    rw [hdm, hmq, zero_sub, zpow_neg, zpow_natCast]
    field_simp

/-- Rendered floats are never the empty string. -/
theorem pyStrFloatChars_ne_nil (q : ℚ) : pyStrFloatChars q ≠ [] := by
  rw [pyStrFloatChars]
  cases hdec : decExp q.den with
  | none =>
    simp only
    intro h
    rcases List.append_eq_nil.mp h with ⟨h1, h2⟩
    rcases List.append_eq_nil.mp h1 with ⟨_, h3⟩
    exact natChars_ne_nil 0 h3
  | some k =>
    simp only
    by_cases hk : k = 0
    · simp only [if_pos hk]
      intro h
      rcases List.append_eq_nil.mp h with ⟨h1, h2⟩
      rcases List.append_eq_nil.mp h1 with ⟨_, h3⟩
      exact natChars_ne_nil _ h3
    · simp only [if_neg hk]
      intro h
      rcases List.append_eq_nil.mp h with ⟨h1, h2⟩
      rcases List.append_eq_nil.mp h1 with ⟨_, h3⟩
      exact natChars_ne_nil _ h3

/-- `validar_preco` accepts the rendering of a stored price exactly. -/
theorem validar_preco_pyStrFloat {q : ℚ} (hq : 0 ≤ q) (hd : IsDec q) :
    validar_preco (pyStrFloat q) = some q := by
  unfold validar_preco
  have hp : pyParseFloat (pyStrFloat q) = some q := by
    show pyParseFloatChars (pyStrFloat q).toList = some q
    show pyParseFloatChars (pyStrFloatChars q) = some q
    exact pyParseFloatChars_pyStrFloatChars hq hd
  rw [hp]
  simp [hq]

/-- `validar_ano` accepts the rendering of a stored year exactly. -/
theorem validar_ano_intToString {y a : Int} (h1 : 1000 ≤ a) (h2 : a ≤ y + 1) :
    validar_ano y (intToString a) = some a := by
  unfold validar_ano
  rw [pyParseInt_intToString (by omega)]
  simp [h1, h2]

/-! ## CSV: the reader automaton inverts the writer -/

/-- Scanning an unquoted field body just accumulates it. -/
theorem foldl_csvStep_unq (d : Char) (f : List Char)
    (hf : ∀ c ∈ f, isSpecial d c = false) :
    ∀ (out : List (List (List Char))) (row : List (List Char))
      (cur : List Char) (seen : Bool),
      f.foldl (csvStep d) ⟨out, row, cur, seen, .unq⟩
        = ⟨out, row, f.reverse ++ cur, seen || !f.isEmpty, .unq⟩ := by
  induction f with
  | nil => intro out row cur seen; simp
  | cons c f ih =>
    intro out row cur seen
    have hc : isSpecial d c = false := hf c (List.mem_cons_self _ _)
    simp only [isSpecial, Bool.or_eq_false_iff, decide_eq_false_iff_not] at hc
    obtain ⟨⟨⟨hcd, hcq⟩, hcr⟩, hcn⟩ := hc
    have hstep : csvStep d ⟨out, row, cur, seen, .unq⟩ c
        = ⟨out, row, c :: cur, true, .unq⟩ := by
      simp only [csvStep, csvStepUnq]
      rw [if_neg hcd, if_neg hcn, if_neg hcr, if_neg (by simp [hcq])]
    rw [List.foldl_cons, hstep,
      ih (fun x hx => hf x (List.mem_cons_of_mem _ hx))]
    simp

/-- Scanning an escaped quoted field body accumulates it, staying in
quotes. -/
theorem foldl_csvStep_inq (d : Char) (f : List Char) :
    ∀ (out : List (List (List Char))) (row : List (List Char))
      (cur : List Char) (seen : Bool),
      (escapeQuotes f).foldl (csvStep d) ⟨out, row, cur, seen, .inq⟩
        = ⟨out, row, f.reverse ++ cur, seen, .inq⟩ := by
  induction f with
  | nil => intro out row cur seen; simp [escapeQuotes]
  | cons c f ih =>
    intro out row cur seen
    by_cases hc : c = '"'
    · subst hc
      rw [escapeQuotes]
      rw [if_pos rfl]
      simp only [List.foldl_cons]
      rw [show csvStep d ⟨out, row, cur, seen, .inq⟩ '"'
            = ⟨out, row, cur, seen, .qp⟩ from by simp [csvStep]]
      rw [show csvStep d ⟨out, row, cur, seen, .qp⟩ '"'
            = ⟨out, row, '"' :: cur, seen, .inq⟩ from by simp [csvStep]]
      rw [ih]
      simp
    · rw [escapeQuotes, if_neg hc]
      simp only [List.foldl_cons]
      rw [show csvStep d ⟨out, row, cur, seen, .inq⟩ c
            = ⟨out, row, c :: cur, seen, .inq⟩ from by simp [csvStep, hc]]
      rw [ih]
      simp

theorem csvStep_open_quote (d : Char) (hd3 : ¬ d = '"')
    (out : List (List (List Char))) (row : List (List Char)) (seen : Bool) :
    csvStep d ⟨out, row, [], seen, .unq⟩ '"' = ⟨out, row, [], true, .inq⟩ := by
  have h1 : ¬ (('"' : Char) = d) := fun h => hd3 h.symm
  simp +decide [csvStep, csvStepUnq, h1]

theorem csvStep_close_quote (d : Char) (out : List (List (List Char)))
    (row : List (List Char)) (cur : List Char) (seen : Bool) :
    csvStep d ⟨out, row, cur, seen, .inq⟩ '"' = ⟨out, row, cur, seen, .qp⟩ := by
  simp [csvStep]

theorem csvStep_qp_delim (d : Char) (hd3 : ¬ d = '"')
    (out : List (List (List Char))) (row : List (List Char)) (cur : List Char)
    (seen : Bool) :
    csvStep d ⟨out, row, cur, seen, .qp⟩ d
      = csvStepUnq d ⟨out, row, cur, seen, .unq⟩ d := by
  simp [csvStep, hd3]

theorem csvStep_qp_cr (d : Char)
    (out : List (List (List Char))) (row : List (List Char)) (cur : List Char)
    (seen : Bool) :
    csvStep d ⟨out, row, cur, seen, .qp⟩ '\r'
      = csvStepUnq d ⟨out, row, cur, seen, .unq⟩ '\r' := by
  simp +decide [csvStep]

theorem csvStepUnq_delim_any (d : Char) (out : List (List (List Char)))
    (row : List (List Char)) (cur : List Char) (seen : Bool) :
    csvStepUnq d ⟨out, row, cur, seen, .unq⟩ d
      = ⟨out, cur.reverse :: row, [], true, .unq⟩ := by
  simp [csvStepUnq]

theorem csvStepUnq_cr_seen (d : Char) (hd1 : ¬ d = '\r')
    (out : List (List (List Char))) (row : List (List Char)) (cur : List Char) :
    csvStepUnq d ⟨out, row, cur, true, .unq⟩ '\r'
      = { csvFresh (((cur.reverse :: row).reverse) :: out) with mode := .cr } := by
  have h1 : ¬ (('\r' : Char) = d) := fun h => hd1 h.symm
  simp +decide [csvStepUnq, h1, emitRecord, csvFresh]

theorem csvStep_cr_lf (d : Char) (out : List (List (List Char))) :
    csvStep d { csvFresh out with mode := .cr } '\n' = csvFresh out := by
  simp [csvStep, csvFresh]

/-- After one whole written row (from a state whose current record is
already marked non-blank), the automaton has emitted exactly that row. -/
theorem foldl_csvStep_row_aux (d : Char)
    (hd1 : ¬ d = '\r') (hd3 : ¬ d = '"') :
    ∀ (fs : List (List Char)), fs ≠ [] →
      ∀ (out : List (List (List Char))) (row : List (List Char)),
        (joinFields d (fs.map (writeField d)) ++ ['\r', '\n']).foldl
            (csvStep d) ⟨out, row, [], true, .unq⟩
          = csvFresh ((row.reverse ++ fs) :: out) := by
  intro fs
  induction fs with
  | nil => intro h; exact absurd rfl h
  | cons f fs ih =>
    intro _ out row
    cases fs with
    | nil =>
      simp only [List.map_cons, List.map_nil, joinFields]
      by_cases hq : f.any (isSpecial d)
      · rw [writeField, if_pos hq]
        have hsh : ('"' :: (escapeQuotes f ++ ['"'])) ++ ['\r', '\n']
            = '"' :: (escapeQuotes f ++ ('"' :: '\r' :: '\n' :: [])) := by
          simp
        rw [hsh, List.foldl_cons, csvStep_open_quote d hd3,
          List.foldl_append, foldl_csvStep_inq, List.foldl_cons,
          csvStep_close_quote, List.foldl_cons, csvStep_qp_cr,
          csvStepUnq_cr_seen d hd1, List.foldl_cons, csvStep_cr_lf,
          List.foldl_nil]
        simp
      · rw [writeField, if_neg hq]
        rw [List.foldl_append,
          foldl_csvStep_unq d f (by
            intro c hc
            rcases Bool.eq_false_or_eq_true (isSpecial d c) with h | h
            · exact absurd (List.any_eq_true.mpr ⟨c, hc, h⟩) (by simp [hq])
            · exact h)]
        simp only [Bool.true_or]
        rw [List.foldl_cons]
        show List.foldl (csvStep d)
          (csvStepUnq d ⟨out, row, f.reverse ++ [], true, .unq⟩ '\r') ['\n'] = _
        rw [csvStepUnq_cr_seen d hd1, List.foldl_cons, csvStep_cr_lf,
          List.foldl_nil]
        simp
    | cons g gs =>
      have hjoin : joinFields d ((f :: g :: gs).map (writeField d))
          = writeField d f ++ d :: joinFields d ((g :: gs).map (writeField d)) := by
        simp [joinFields]
      rw [hjoin, List.append_assoc, List.cons_append]
      by_cases hq : f.any (isSpecial d)
      · rw [writeField, if_pos hq]
        have hsh : ('"' :: (escapeQuotes f ++ ['"'])) ++
              (d :: (joinFields d ((g :: gs).map (writeField d)) ++ ['\r', '\n']))
            = '"' :: (escapeQuotes f ++ ('"' :: d ::
                (joinFields d ((g :: gs).map (writeField d)) ++ ['\r', '\n']))) := by
          simp
        rw [hsh, List.foldl_cons, csvStep_open_quote d hd3,
          List.foldl_append, foldl_csvStep_inq, List.foldl_cons,
          csvStep_close_quote, List.foldl_cons, csvStep_qp_delim d hd3,
          csvStepUnq_delim_any]
        simp only [List.append_nil, List.reverse_reverse]
        rw [ih (by simp) out (f :: row)]
        simp
      · rw [writeField, if_neg hq]
        rw [List.foldl_append,
          foldl_csvStep_unq d f (by
            intro c hc
            rcases Bool.eq_false_or_eq_true (isSpecial d c) with h | h
            · exact absurd (List.any_eq_true.mpr ⟨c, hc, h⟩) (by simp [hq])
            · exact h)]
        simp only [Bool.true_or]
        rw [List.foldl_cons]
        show List.foldl (csvStep d)
          (csvStepUnq d ⟨out, row, f.reverse ++ [], true, .unq⟩ d) _ = _
        rw [csvStepUnq_delim_any]
        simp only [List.append_nil, List.reverse_reverse]
        rw [ih (by simp) out (f :: row)]
        simp

/-- One whole written row from a fresh state (at least two fields, as
every row this program writes has four). -/
theorem foldl_csvStep_row (d : Char)
    (hd1 : ¬ d = '\r') (hd3 : ¬ d = '"')
    (fs : List (List Char)) (h2 : 2 ≤ fs.length)
    (out : List (List (List Char))) :
    (writeRow d fs).foldl (csvStep d) (csvFresh out) = csvFresh (fs :: out) := by
  match fs, h2 with
  | f :: g :: gs, _ =>
    have hjoin : joinFields d ((f :: g :: gs).map (writeField d))
        = writeField d f ++ d :: joinFields d ((g :: gs).map (writeField d)) := by
      simp [joinFields]
    rw [writeRow, hjoin, List.append_assoc, List.cons_append]
    show (writeField d f ++ (d :: _)).foldl (csvStep d)
      (⟨out, [], [], false, .unq⟩ : CsvSt) = _
    by_cases hq : f.any (isSpecial d)
    · rw [writeField, if_pos hq]
      have hsh : ('"' :: (escapeQuotes f ++ ['"'])) ++
            (d :: (joinFields d ((g :: gs).map (writeField d)) ++ ['\r', '\n']))
          = '"' :: (escapeQuotes f ++ ('"' :: d ::
              (joinFields d ((g :: gs).map (writeField d)) ++ ['\r', '\n']))) := by
        simp
      rw [hsh, List.foldl_cons, csvStep_open_quote d hd3,
        List.foldl_append, foldl_csvStep_inq, List.foldl_cons,
        csvStep_close_quote, List.foldl_cons, csvStep_qp_delim d hd3,
        csvStepUnq_delim_any]
      simp only [List.append_nil, List.reverse_reverse]
      rw [foldl_csvStep_row_aux d hd1 hd3 (g :: gs) (by simp) out [f]]
      simp
    · rw [writeField, if_neg hq]
      rw [List.foldl_append,
        foldl_csvStep_unq d f (by
          intro c hc
          rcases Bool.eq_false_or_eq_true (isSpecial d c) with h | h
          · exact absurd (List.any_eq_true.mpr ⟨c, hc, h⟩) (by simp [hq])
          · exact h)]
      rw [List.foldl_cons]
      show List.foldl (csvStep d)
        (csvStepUnq d ⟨out, [], f.reverse ++ [], false || !f.isEmpty, .unq⟩ d) _ = _
      rw [csvStepUnq_delim_any]
      simp only [List.append_nil, List.reverse_reverse]
      rw [foldl_csvStep_row_aux d hd1 hd3 (g :: gs) (by simp) out [f]]
      simp

/-- The reader parses a concatenation of written rows back to exactly
those rows. -/
theorem foldl_csvStep_rows (d : Char)
    (hd1 : ¬ d = '\r') (hd3 : ¬ d = '"') :
    ∀ (rows : List (List (List Char))), (∀ r ∈ rows, 2 ≤ r.length) →
      ∀ out, ((rows.map (writeRow d)).flatten).foldl (csvStep d) (csvFresh out)
        = csvFresh (rows.reverse ++ out) := by
  intro rows
  induction rows with
  | nil => intro _ out; simp
  | cons r rs ih =>
    intro h out
    simp only [List.map_cons, List.flatten_cons, List.foldl_append]
    rw [foldl_csvStep_row d hd1 hd3 r (h r (List.mem_cons_self _ _)) out,
      ih (fun x hx => h x (List.mem_cons_of_mem _ hx)) (r :: out)]
    simp

/-- Full writer/reader round trip on the record level. -/
theorem parseRecords_writeRows (d : Char)
    (hd1 : ¬ d = '\r') (hd3 : ¬ d = '"')
    (rows : List (List (List Char))) (h : ∀ r ∈ rows, 2 ≤ r.length) :
    parseRecords d ((rows.map (writeRow d)).flatten) = some rows := by
  rw [parseRecords, foldl_csvStep_rows d hd1 hd3 rows h []]
  simp [csvFinish, csvFresh]


/-! ## The exported text through the reader -/

theorem export_toList (st : Store) :
    (export_csv_to_memory st).toList
      = ((exportHeader :: (listar_livros st).map bookRowFields).map
          (writeRow ',')).flatten := by
  show writeRow ',' exportHeader ++
      ((listar_livros st).map (fun b => writeRow ',' (bookRowFields b))).flatten = _
  simp only [List.map_cons, List.flatten_cons, List.map_map]
  rfl

theorem writeRow_ne_nil (d : Char) (fs : List (List Char)) :
    writeRow d fs ≠ [] := by
  intro h
  rcases List.append_eq_nil.mp h with ⟨_, h2⟩
  cases h2

theorem export_ne_empty (st : Store) : export_csv_to_memory st ≠ "" := by
  apply mk_ne_empty
  intro h
  rcases List.append_eq_nil.mp h with ⟨h1, _⟩
  exact writeRow_ne_nil ',' exportHeader h1

theorem firstLine_append (l1 : List Char)
    (h : ∀ c ∈ l1, isPySplitLineBreak c = false) (l2 : List Char) :
    firstLine (l1 ++ '\r' :: l2) = l1 := by
  induction l1 with
  | nil => simp +decide [firstLine]
  | cons c l ih =>
    have hc := h c (List.mem_cons_self _ _)
    rw [List.cons_append, firstLine, List.takeWhile_cons, if_pos (by simp [hc])]
    rw [show List.takeWhile (fun c => ¬ isPySplitLineBreak c) (l ++ '\r' :: l2) = l from
      ih (fun x hx => h x (List.mem_cons_of_mem _ hx))]

theorem export_header_chars :
    writeRow ',' exportHeader
      = ("titulo,autor,ano_publicacao,preco" : String).toList ++ ['\r', '\n'] := by
  decide

theorem export_firstLine (st : Store) :
    firstLine (export_csv_to_memory st).toList
      = ("titulo,autor,ano_publicacao,preco" : String).toList := by
  have hshape : (export_csv_to_memory st).toList
      = ("titulo,autor,ano_publicacao,preco" : String).toList ++ '\r' :: ('\n' ::
          ((listar_livros st).map (fun b => writeRow ',' (bookRowFields b))).flatten) := by
    show writeRow ',' exportHeader ++ _ = _
    rw [export_header_chars]
    simp
  rw [hshape, firstLine_append]
  decide

theorem csvRead_export (st : Store)
    (hwf : st.books.Pairwise (fun a b => a.id < b.id)) :
    csvRead (export_csv_to_memory st)
      = some (["titulo", "autor", "ano_publicacao", "preco"],
         st.books.map (fun b =>
           [b.titulo, b.autor, optAnoStr b.ano, optPrecoStr b.preco])) := by
  unfold csvRead
  rw [if_neg (export_ne_empty st)]
  rw [export_firstLine st, mk_toList]
  rw [show detect_delimiter "titulo,autor,ano_publicacao,preco" = ',' from by decide]
  rw [export_toList st,
    parseRecords_writeRows ',' (by decide) (by decide) _ (by
      intro r hr
      rcases List.mem_cons.mp hr with rfl | hr
      · decide
      · obtain ⟨b, _, rfl⟩ := List.mem_map.mp hr
        simp [bookRowFields])]
  simp only [Option.some.injEq, Prod.mk.injEq]
  constructor
  · decide
  · rw [listar_of_sorted hwf]
    rw [List.filter_eq_self.mpr (by
      intro r hr
      obtain ⟨b, _, rfl⟩ := List.mem_map.mp hr
      simp [bookRowFields])]
    rw [List.map_map]
    apply List.map_congr_left
    intro b _
    simp [bookRowFields, mk_toList, Function.comp]

/-! ## Recovering each book from its exported row -/

theorem intToString_ne_empty {a : Int} (h : 0 ≤ a) : intToString a ≠ "" := by
  apply mk_ne_empty
  unfold intChars
  rw [if_neg (by omega)]
  exact natChars_ne_nil _

theorem pyStrFloat_ne_empty (q : ℚ) : pyStrFloat q ≠ "" :=
  mk_ne_empty (pyStrFloatChars_ne_nil q)

theorem rowToBook_export {y : Int} {b : Book} (hb : GoodBook y b) (id : Nat) :
    bookData (rowToBook y id ["titulo", "autor", "ano_publicacao", "preco"]
        [b.titulo, b.autor, optAnoStr b.ano, optPrecoStr b.preco])
      = bookData b := by
  obtain ⟨ht1, ht2, ha1, ha2, hano, hpreco⟩ := hb
  have hg1 : dictGet ["titulo", "autor", "ano_publicacao", "preco"]
      [b.titulo, b.autor, optAnoStr b.ano, optPrecoStr b.preco] "titulo"
      = some b.titulo := by
    unfold dictGet
    rw [show lastIdxOf ["titulo", "autor", "ano_publicacao", "preco"] "titulo"
        = some 0 from by decide]
    rfl
  have hg2 : dictGet ["titulo", "autor", "ano_publicacao", "preco"]
      [b.titulo, b.autor, optAnoStr b.ano, optPrecoStr b.preco] "autor"
      = some b.autor := by
    unfold dictGet
    rw [show lastIdxOf ["titulo", "autor", "ano_publicacao", "preco"] "autor"
        = some 1 from by decide]
    rfl
  have hg3 : dictGet ["titulo", "autor", "ano_publicacao", "preco"]
      [b.titulo, b.autor, optAnoStr b.ano, optPrecoStr b.preco] "ano_publicacao"
      = some (optAnoStr b.ano) := by
    unfold dictGet
    rw [show lastIdxOf ["titulo", "autor", "ano_publicacao", "preco"] "ano_publicacao"
        = some 2 from by decide]
    rfl
  have hg4 : dictGet ["titulo", "autor", "ano_publicacao", "preco"]
      [b.titulo, b.autor, optAnoStr b.ano, optPrecoStr b.preco] "preco"
      = some (optPrecoStr b.preco) := by
    unfold dictGet
    rw [show lastIdxOf ["titulo", "autor", "ano_publicacao", "preco"] "preco"
        = some 3 from by decide]
    rfl
  have habs : ∀ k : String, lastIdxOf ["titulo", "autor", "ano_publicacao", "preco"] k
      = none →
      dictGet ["titulo", "autor", "ano_publicacao", "preco"]
        [b.titulo, b.autor, optAnoStr b.ano, optPrecoStr b.preco] k = none := by
    intro k hk
    unfold dictGet
    rw [hk]
    rfl
  have hn1 := habs "title" (by decide)
  have hn2 := habs "author" (by decide)
  have hn3 := habs "year" (by decide)
  have hn4 := habs "price" (by decide)
  unfold rowToBook bookData
  simp only [rawField, hg1, hg2, hg3, hg4, hn1, hn2, hn3, hn4, truthyOr,
    Prod.mk.injEq]
  refine ⟨?_, ?_, ?_, ?_⟩
  · rw [if_neg ht2, ht1]
  · rw [if_neg ha2, ha1]
  · cases hano' : b.ano with
    | none =>
      simp [optAnoStr]
    | some a =>
      have hbounds := hano a hano'
      have hne : intToString a ≠ "" := intToString_ne_empty (by omega)
      simp only [optAnoStr, if_neg hne]
      exact validar_ano_intToString hbounds.1 hbounds.2
  · cases hpre' : b.preco with
    | none =>
      simp [optPrecoStr]
    | some p =>
      have hgood := hpreco p hpre'
      have hne : pyStrFloat p ≠ "" := pyStrFloat_ne_empty p
      simp only [optPrecoStr, if_neg hne]
      exact validar_preco_pyStrFloat hgood.1 hgood.2

theorem buildRows_export {y : Int} :
    ∀ (books : List Book), (∀ b ∈ books, GoodBook y b) → ∀ id : Nat,
      (buildRows y ["titulo", "autor", "ano_publicacao", "preco"] id
        (books.map (fun b =>
          [b.titulo, b.autor, optAnoStr b.ano, optPrecoStr b.preco]))).map bookData
      = books.map bookData := by
  intro books
  induction books with
  | nil => intro _ _; rfl
  | cons b bs ih =>
    intro h id
    simp only [List.map_cons, buildRows]
    rw [rowToBook_export (h b (List.mem_cons_self _ _)) id,
      ih (fun x hx => h x (List.mem_cons_of_mem _ hx)) (id + 1)]

/-! ## The add route keeps the store exportable -/

theorem applyAdd_good {y : Int} {s : Sys} (h : GoodStore y s.store) (r : AddReq) :
    GoodStore y ((applyAdd y s r).store) := by
  unfold applyAdd api_add
  by_cases hta : pyStrip r.titulo = "" ∨ pyStrip r.autor = ""
  · simp only [if_pos hta]; exact h
  · simp only [if_neg hta]
    push_neg at hta
    cases hv1 : (match r.ano with
                 | none => some none
                 | some a => if a = "" then some none else (validar_ano y a).map some) with
    | none => exact h
    | some anoVal =>
      cases hv2 : (match r.preco with
                   | none => some none
                   | some p => if p = "" then some none else (validar_preco p).map some) with
      | none => exact h
      | some precoVal =>
        have hanoVal : ∀ a, anoVal = some a → 1000 ≤ a ∧ a ≤ y + 1 := by
          intro a ha
          subst ha
          split at hv1
          · injection hv1 with h
            cases h
          · split at hv1
            · injection hv1 with h
              cases h
            · obtain ⟨v, hvv, hmap⟩ := Option.map_eq_some'.mp hv1
              injection hmap with h
              cases h
              exact validar_ano_bounds hvv
        have hprecoVal : ∀ p, precoVal = some p → 0 ≤ p ∧ IsDec p := by
          intro p hp
          subst hp
          split at hv2
          · injection hv2 with h
            cases h
          · split at hv2
            · injection hv2 with h
              cases h
            · obtain ⟨v, hvv, hmap⟩ := Option.map_eq_some'.mp hv2
              injection hmap with h
              cases h
              exact validar_preco_good hvv
        show GoodStore y (add_livro 0 (pyStrip r.titulo) (pyStrip r.autor)
          anoVal precoVal s).2.store
        constructor
        · constructor
          · intro b hb
            rcases List.mem_append.mp hb with hb | hb
            · have := h.1.1 b hb
              show b.id < s.store.nextId + 1
              omega
            · simp only [List.mem_singleton] at hb
              subst hb
              show s.store.nextId < s.store.nextId + 1
              omega
          · apply List.pairwise_append.mpr
            refine ⟨h.1.2, List.pairwise_singleton _ _, ?_⟩
            intro a ha b hb
            simp only [List.mem_singleton] at hb
            subst hb
            exact h.1.1 a ha
        · intro b hb
          rcases List.mem_append.mp hb with hb | hb
          · exact h.2 b hb
          · simp only [List.mem_singleton] at hb
            subst hb
            refine ⟨?_, ?_, ?_, ?_, ?_, ?_⟩
            · show pyStrip (pyStrip (pyStrip r.titulo)) = pyStrip (pyStrip r.titulo)
              rw [pyStrip_idem]
            · show pyStrip (pyStrip r.titulo) ≠ ""
              rw [pyStrip_idem]
              exact hta.1
            · show pyStrip (pyStrip (pyStrip r.autor)) = pyStrip (pyStrip r.autor)
              rw [pyStrip_idem]
            · show pyStrip (pyStrip r.autor) ≠ ""
              rw [pyStrip_idem]
              exact hta.2
            · exact hanoVal
            · exact hprecoVal

theorem goodStore_empty (y : Int) : GoodStore y Sys.empty.store := by
  refine ⟨⟨?_, ?_⟩, ?_⟩
  · intro b hb; cases hb
  · exact List.Pairwise.nil
  · intro b hb; cases hb

theorem foldl_applyAdd_good (y : Int) (reqs : List AddReq) :
    ∀ s : Sys, GoodStore y s.store →
      GoodStore y ((reqs.foldl (applyAdd y) s).store) := by
  induction reqs with
  | nil => intro s h; exact h
  | cons r rs ih =>
    intro s h
    rw [List.foldl_cons]
    exact ih _ (applyAdd_good h r)

/-! ## The round trip through export and import -/

theorem import_export_books {y : Int} {st : Store}
    (hwf : st.books.Pairwise (fun a b => a.id < b.id))
    (hg : ∀ b ∈ st.books, GoodBook y b) (t : Nat) (s0 : Sys) :
    ((import_csv_file y t (export_csv_to_memory st) s0).2.store.books).map bookData
      = s0.store.books.map bookData ++ st.books.map bookData := by
  unfold import_csv_file
  rw [csvRead_export st hwf]
  by_cases hb : st.books = []
  · simp [hb]
  · simp only [if_neg (show ¬ (st.books.map (fun b =>
        [b.titulo, b.autor, optAnoStr b.ano, optPrecoStr b.preco]) = []) from by
      simp [hb])]
    rw [insertRows_eq_buildRows, List.map_append]
    congr 1
    exact buildRows_export st.books hg s0.store.nextId

/-! ## C9: export/import round trip -/

/-- C9: starting from an empty store, for every sequence of add
requests, exporting the resulting store to CSV and importing that CSV
into an empty system yields exactly the same row set — same titles,
authors, years and prices, in order; only the system-assigned ids may
differ. -/
theorem export_import_roundtrip (y : Int) (reqs : List AddReq) :
    ((import_csv_file y 0
        (export_csv_to_memory ((reqs.foldl (applyAdd y) Sys.empty).store))
        Sys.empty).2.store.books).map bookData
      = ((reqs.foldl (applyAdd y) Sys.empty).store.books).map bookData := by
  have hg := foldl_applyAdd_good y reqs Sys.empty (goodStore_empty y)
  have h := import_export_books hg.1.2 hg.2 0 Sys.empty
  simpa using h

end Livraria
